import Mathlib

/-!
# Single-device feature layout (`feature_layout_single.h`) and loss descriptions
(`loss_description.h`)

Shallow embedding of `TCudaFeaturesLayoutHelper<TSingleDevLayout>` and of the
loss-description parsers, followed by the properties proved about them.

Conventions of the embedding

* machine integers are `Nat`; a narrowing conversion is written as an explicit
  `% 2 ^ 32`;
* a failed `CB_ENSURE` is an `Except.error` naming the check that failed;
* an out-of-range `operator[]` (undefined behaviour in the source) is the
  distinguished error `TError.IndexOutOfRange`, so that "every index is in
  bounds" is a statement about the run;
* a `Y_ASSERT` whose condition is false ends the run with the error naming it, so
  that "the assertion never fires" is a statement about the run;
* the process-wide device manager is passed in as the list it reports from
  `GetActiveDevices()`;
* the operations that the builder issues to the device are collected, in program
  order, in `TRun.Ops`.
-/

set_option autoImplicit false

namespace NCudaLib

/-- Half-open index range `[Left, Right)` (`TSlice`). -/
structure TSlice where
  Left : Nat
  Right : Nat
deriving DecidableEq, Repr

/-- Number of indices of a slice (`TSlice::Size`). -/
def TSlice.Size (s : TSlice) : Nat := s.Right - s.Left

/-- Modelled from the spec: `NCudaLib::TSingleMapping` (cuda_lib/mapping.h) is not part of
the excerpt. A single mapping places `Count` objects on the one device `DeviceId`; the
spec's device-slice invariant ("slices across all devices partition `[0, featureCount)`
exactly, no overlap, no gap") gives that device the whole range and every other device
an empty slice. -/
structure TSingleMapping where
  DeviceId : Nat
  Count : Nat
deriving DecidableEq, Repr

/-- Modelled from the spec: `TSingleMapping::DeviceSlice`, the range of objects that lives
on device `dev` (the full range on the mapping's own device, the empty range `[0, 0)`
elsewhere). -/
def TSingleMapping.DeviceSlice (m : TSingleMapping) (dev : Nat) : TSlice :=
  if dev = m.DeviceId then ⟨0, m.Count⟩ else ⟨0, 0⟩

/-- Modelled from the spec: `TSingleMapping::GetObjectsSlice`, all objects of the mapping
(`objectSlice() → sampleCount` in the spec's external interfaces). -/
def TSingleMapping.GetObjectsSlice (m : TSingleMapping) : TSlice := ⟨0, m.Count⟩

/-- The device of a single mapping (`TSingleMapping::GetDeviceId`). -/
def TSingleMapping.GetDeviceId (m : TSingleMapping) : Nat := m.DeviceId

/-- Modelled from the spec: `TDistributedObject<T>` (one value per device, addressed by
device id) is declared outside the excerpt; it is a total map from device ids to
values. -/
def TDistributedObject (α : Type) : Type := Nat → α

/-- Modelled from the spec: `TCudaManager::CreateDistributedObject<T>(value)`, the same
value on every device. -/
def CreateDistributedObject {α : Type} (value : α) : TDistributedObject α := fun _ => value

/-- Read the value of device `dev` (`TDistributedObject::At`). -/
def TDistributedObject.At {α : Type} (o : TDistributedObject α) (dev : Nat) : α := o dev

/-- Overwrite the value of device `dev` (`TDistributedObject::Set`). -/
def TDistributedObject.Set {α : Type} (o : TDistributedObject α) (dev : Nat) (value : α) :
    TDistributedObject α :=
  fun d => if d = dev then value else o d

/-- Modelled from the spec: a device buffer over a single mapping (`TCudaBuffer` with
`TSingleMapping`): the mapping it was last `Reset` to and the host data last written. -/
structure TSingleBuffer (α : Type) where
  Mapping : TSingleMapping
  Data : List α

/-- Re-allocate the buffer for `mapping` (`TCudaBuffer::Reset`). -/
def TSingleBuffer.Reset {α : Type} (_b : TSingleBuffer α) (mapping : TSingleMapping) :
    TSingleBuffer α :=
  ⟨mapping, []⟩

/-- Copy host data into the buffer (`TCudaBuffer::Write`). -/
def TSingleBuffer.Write {α : Type} (b : TSingleBuffer α) (src : List α) : TSingleBuffer α :=
  { b with Data := src }

end NCudaLib

namespace NCatboostCuda

open NCudaLib

/-- The checks of the builder that can fail. -/
inductive TError where
  /-- `CB_ENSURE(devices.size() == 1, "Can't create single mapping layout with more than
  one active device")` -/
  | ActiveDeviceCheck
  /-- `CB_ENSURE(devSlice.Left == 0)` -/
  | SliceLeftCheck
  /-- `CB_ENSURE(devSlice.Right == featureIds.size())` -/
  | SliceRightCheck
  /-- the Grouping Policy Helper rejects the bin count of the feature at this grid index -/
  | BinCountCheck (feature : Nat)
  /-- an `operator[]` outside the vector -/
  | IndexOutOfRange
  /-- `Y_ASSERT(result.BinFeatureCount.At(dev) == result.BinFeatures.size())` fires -/
  | BinFeatureCountAssert
deriving DecidableEq, Repr

/-- The errors raised by a failed `CB_ENSURE` (the spec's "configuration errors"). -/
def TError.IsConfigurationError : TError → Bool
  | .ActiveDeviceCheck => true
  | .SliceLeftCheck => true
  | .SliceRightCheck => true
  | .BinCountCheck _ => true
  | .IndexOutOfRange => false
  | .BinFeatureCountAssert => false

/-- Modelled from the spec: the Feature Descriptor `TCFeature` (gpu_structures.h, not part
of the excerpt): "owning word offset within the compressed index, bit shift, bit mask,
bin count". -/
structure TCFeature where
  Offset : Nat
  Mask : Nat
  Shift : Nat
  BinCount : Nat
deriving DecidableEq, Repr, Inhabited

/-- Modelled from the spec: a Bin-Feature `TCBinFeature` (gpu_structures.h, not part of
the excerpt), "one binary split candidate derived from a feature's bin boundaries": the
feature it belongs to and the fold (bin boundary) it tests. -/
structure TCBinFeature where
  FeatureId : Nat
  BinId : Nat
deriving DecidableEq, Repr, Inhabited

/-- Modelled from the spec: the Folds Histogram (`TFoldsHistogram`, not part of the
excerpt), "count of bin-features per histogram fold"; `Counts[k]` is the count of fold
`k`, folds past the end of the list have count zero. -/
structure TFoldsHistogram where
  Counts : List Nat
deriving DecidableEq, Repr, Inhabited

/-- Modelled from the spec: the binarization collaborator
(`TFeaturesBinarizationDescription`, a template parameter of the builder; spec section
6, "featureId → binCount, thresholds[]"). `GetSplitCount` is the number of split
candidates of a feature: `B - 1` for a numeric feature with `B` bins, the policy's rule
for a categorical one; that rule is not part of the excerpt, so the count is supplied
here. -/
structure TFeaturesBinarizationDescription where
  GetBinCount : Nat → Nat
  GetSplitCount : Nat → Nat

/-- Modelled from the spec: the Grid (`TCpuGrid`, feature_layout_common.h, not part of
the excerpt), "ordered sequence of feature ids with their bin-count metadata". -/
structure TCpuGrid where
  FeatureIds : List Nat
  BinCounts : List Nat
  SplitCounts : List Nat
deriving DecidableEq, Repr, Inhabited

/-- Modelled from the spec: the constructor `TCpuGrid(info, featureIds)`: the requested
feature ids, in the order given, each with its metadata from the binarization
description. -/
def TCpuGrid.Create (info : TFeaturesBinarizationDescription) (featureIds : List Nat) :
    TCpuGrid :=
  ⟨featureIds, featureIds.map info.GetBinCount, featureIds.map info.GetSplitCount⟩

/-- The split candidates of the feature at grid index `i`, in ascending threshold order
(none when `i` is not an index of the grid). -/
def TCpuGrid.FeatureBinFeatures (grid : TCpuGrid) (i : Nat) : List TCBinFeature :=
  match grid.FeatureIds[i]?, grid.SplitCounts[i]? with
  | some id, some n => (List.range n).map (fun k => ⟨id, k⟩)
  | _, _ => []

/-- Modelled from the spec: the Bin-Feature Expander `BuildBinaryFeatures(featureRange)`
(section 4.3): "For each feature in range, in ascending feature-index order, emit its
bin-features in ascending threshold order." -/
def BuildBinaryFeatures (grid : TCpuGrid) (featureRange : TSlice) : List TCBinFeature :=
  ((List.range' featureRange.Left featureRange.Size).map grid.FeatureBinFeatures).flatten

/-- Count one more bin-feature in fold `fold`. -/
def AddToFold : List Nat → Nat → List Nat
  | [], 0 => [1]
  | [], fold + 1 => 0 :: AddToFold [] fold
  | c :: counts, 0 => (c + 1) :: counts
  | c :: counts, fold + 1 => c :: AddToFold counts fold

/-- Modelled from the spec: `TCpuGrid::ComputeFoldsHistogram(slice)` (section 4.3):
"partitions the same bin-features by fold id and returns per-fold counts". -/
def TCpuGrid.ComputeFoldsHistogram (grid : TCpuGrid) (slice : TSlice) : TFoldsHistogram :=
  ⟨(BuildBinaryFeatures grid slice).foldl (fun counts b => AddToFold counts b.BinId) []⟩

/-- Modelled from the spec: a grouping policy (`EFeaturesGroupingPolicy` with its
per-policy constants, grid_policy.h, not part of the excerpt). The spec fixes what a
policy decides, not its arithmetic, so the arithmetic is a parameter: `MaxBins` is the
largest bin count a word width under the policy can represent, `Describe` computes the
descriptor of a feature from the bin counts of the features of the slice before it, its
own bin count, the load offset and the sample count, `WordCount` the number of words
the features of a slice occupy for that many samples. -/
structure TGroupingPolicy where
  MaxBins : Nat
  Describe : List Nat → Nat → Nat → Nat → TCFeature
  WordCount : List Nat → Nat → Nat

/-- The loop of the Grouping Policy Helper over the grid indices of the slice: `seen`
are the bin counts of the features already placed, `features` the output vector. -/
def AddDeviceFeaturesLoop (policy : TGroupingPolicy) (grid : TCpuGrid)
    (loadOffset docCount : Nat) :
    List Nat → List Nat → List TCFeature → Except TError (List Nat × List TCFeature)
  | [], seen, features => .ok (seen, features)
  | f :: rest, seen, features =>
    match grid.BinCounts[f]? with
    | none => .error .IndexOutOfRange
    | some bins =>
      if policy.MaxBins < bins then .error (.BinCountCheck f)
      else AddDeviceFeaturesLoop policy grid loadOffset docCount rest (seen ++ [bins])
        (features ++ [policy.Describe seen bins loadOffset docCount])

/-- Modelled from the spec: the Grouping Policy Helper
`TCudaFeaturesHelper::AddDeviceFeatures<Policy>(slice, loadOffset, docCount, &features)`
(feature_layout_common.h, not part of the excerpt; spec section 4.1): "given a policy
tag and a device slice of features (with bin counts from the grid), emits an ordered
sequence of Feature Descriptors plus the total word count consumed", one descriptor per
feature (section 3), appended to `features`; "a feature whose bin count exceeds what any
word width under the policy can represent is a fatal configuration error". -/
def AddDeviceFeatures (policy : TGroupingPolicy) (grid : TCpuGrid) (slice : TSlice)
    (loadOffset docCount : Nat) (features : List TCFeature) :
    Except TError (Nat × List TCFeature) :=
  match AddDeviceFeaturesLoop policy grid loadOffset docCount
      (List.range' slice.Left slice.Size) [] features with
  | .error e => .error e
  | .ok (seen, out) => .ok (policy.WordCount seen docCount, out)

/-- Modelled from the spec: the Feature Block `TGpuFeaturesBlockDescription`
(feature_layout_common.h, not part of the excerpt; spec section 3), with the members the
builder assigns. -/
structure TFeaturesBlock where
  Grid : TCpuGrid
  CudaFeaturesHost : List (TDistributedObject TCFeature)
  Samples : TSingleMapping
  CIndexSizes : TDistributedObject Nat
  CIndexOffsets : TDistributedObject Nat
  FoldsHistogram : TDistributedObject TFoldsHistogram
  CudaFeaturesDevice : TSingleBuffer TCFeature
  BinFeatures : List TCBinFeature
  BinFeatureCount : TDistributedObject Nat
  HistogramsMapping : TSingleMapping
  BinFeaturesForBestSplits : TSingleBuffer TCBinFeature

/-- Modelled from the spec: the constructor `TFeaturesBlock(grid)`: it takes the grid,
every per-device value starts at its default on every device, every container and
buffer is empty. -/
def TFeaturesBlock.New (grid : TCpuGrid) : TFeaturesBlock :=
  { Grid := grid
    CudaFeaturesHost := []
    Samples := ⟨0, 0⟩
    CIndexSizes := CreateDistributedObject 0
    CIndexOffsets := CreateDistributedObject 0
    FoldsHistogram := CreateDistributedObject ⟨[]⟩
    CudaFeaturesDevice := ⟨⟨0, 0⟩, []⟩
    BinFeatures := []
    BinFeatureCount := CreateDistributedObject 0
    HistogramsMapping := ⟨0, 0⟩
    BinFeaturesForBestSplits := ⟨⟨0, 0⟩, []⟩ }

/-- The operations the builder issues to the device, with their arguments. -/
inductive TDeviceOp where
  /-- `helper.AddDeviceFeatures<Policy>(devSlice, cindexDeviceOffset, docCount, &features)` -/
  | AddDeviceFeatures (slice : TSlice) (cindexDeviceOffset docCount : Nat)
  /-- `result.CudaFeaturesDevice.Reset(layout)` -/
  | CudaFeaturesDeviceReset (layout : TSingleMapping)
  /-- `result.CudaFeaturesDevice.Write(features)` -/
  | CudaFeaturesDeviceWrite (features : List TCFeature)
  /-- `result.BinFeaturesForBestSplits.Reset(result.HistogramsMapping)` -/
  | BinFeaturesForBestSplitsReset (mapping : TSingleMapping)
  /-- `result.BinFeaturesForBestSplits.Write(result.BinFeatures)` -/
  | BinFeaturesForBestSplitsWrite (binFeatures : List TCBinFeature)
deriving DecidableEq, Repr

/-- `TVector::resize(n, value)`. -/
def Resize {α : Type} (v : List α) (n : Nat) (value : α) : List α :=
  (v ++ List.replicate (n - v.length) value).take n

/-- Insertion into a `TSet<ui32>`, kept as its ascending duplicate-free list of
elements. -/
def TSetInsert (s : List Nat) (d : Nat) : List Nat :=
  if d ∈ s then s else List.orderedInsert (· ≤ ·) d s

/-- Source lines 28-35, `GetActiveDevice`: collect the manager's active devices in a set,
require the set to have exactly one element and return it. -/
def GetActiveDevice (activeDevices : List Nat) : Except TError Nat :=
  let devices := activeDevices.foldl TSetInsert []
  if devices.length = 1 then .ok (devices.headD 0) else .error .ActiveDeviceCheck

/-- Source lines 37-39, `CreateLayout`: the single mapping of `featureCount` elements on
the active device. -/
def CreateLayout (activeDevices : List Nat) (featureCount : Nat) : Except TError TSingleMapping :=
  match GetActiveDevice activeDevices with
  | .error e => .error e
  | .ok dev => .ok ⟨dev, featureCount⟩

/-- Source lines 75-77, the mirroring loop
`for (ui32 i = devSlice.Left; i < devSlice.Right; ++i) result.CudaFeaturesHost[i].Set(dev, features[i]);`
over the indices it visits. (At this point of the builder `devSlice.Right` is the element
count of a layout created from a `ui32`, so the `ui32` counter does not wrap.) -/
def MirrorFeatures (dev : Nat) (features : List TCFeature) :
    List Nat → List (TDistributedObject TCFeature) →
      Except TError (List (TDistributedObject TCFeature))
  | [], host => .ok host
  | i :: rest, host =>
    match host[i]?, features[i]? with
    | some h, some f => MirrorFeatures dev features rest (host.set i (h.Set dev f))
    | _, _ => .error .IndexOutOfRange

/-- A run of the builder: the device operations issued, in program order, and either the
feature block returned or the error raised. -/
structure TRun where
  Ops : List TDeviceOp
  Result : Except TError TFeaturesBlock

/-- Source lines 86-92, the end of `CreateFeaturesBlock`: the defensive assertion on the
recorded bin-feature count, then the histograms mapping and the best-split buffer.
`ops` are the device operations issued so far. -/
def AssertAndFinish (dev : Nat) (ops : List TDeviceOp) (result : TFeaturesBlock) : TRun :=
  if result.BinFeatureCount.At dev ≠ result.BinFeatures.length then
    ⟨ops, .error .BinFeatureCountAssert⟩
  else
    let result := { result with
      HistogramsMapping := ⟨dev, result.BinFeatureCount.At dev⟩ }
    let result := { result with
      BinFeaturesForBestSplits :=
        result.BinFeaturesForBestSplits.Reset result.HistogramsMapping }
    let ops := ops ++ [TDeviceOp.BinFeaturesForBestSplitsReset result.HistogramsMapping]
    let result := { result with
      BinFeaturesForBestSplits :=
        result.BinFeaturesForBestSplits.Write result.BinFeatures }
    let ops := ops ++ [TDeviceOp.BinFeaturesForBestSplitsWrite result.BinFeatures]
    ⟨ops, .ok result⟩

/-- Source lines 43-93, `CreateFeaturesBlock<Policy>(featureIds, info, docsMapping,
cindexOffsets)`, statement by statement (lines 86-92 are `AssertAndFinish`).
`activeDevices` is what the device manager reports; `CreateLayout` takes a `ui32`, hence
the narrowing of `featureIds.size()`. -/
def CreateFeaturesBlock (policy : TGroupingPolicy) (activeDevices : List Nat)
    (featureIds : List Nat) (info : TFeaturesBinarizationDescription)
    (docsMapping : TSingleMapping) (cindexOffsets : TDistributedObject Nat) : TRun :=
  let result := TFeaturesBlock.New (TCpuGrid.Create info featureIds)
  match CreateLayout activeDevices (featureIds.length % 2 ^ 32) with
  | .error e => ⟨[], .error e⟩
  | .ok layout =>
    let dev := docsMapping.GetDeviceId
    let result := { result with
      CudaFeaturesHost := Resize result.CudaFeaturesHost result.Grid.FeatureIds.length
        (CreateDistributedObject default) }
    let result := { result with Samples := docsMapping }
    let features : List TCFeature := []
    let docCount := docsMapping.GetObjectsSlice.Size
    let devSlice := layout.DeviceSlice dev
    if devSlice.Left ≠ 0 then ⟨[], .error .SliceLeftCheck⟩
    else if devSlice.Right ≠ featureIds.length then ⟨[], .error .SliceRightCheck⟩
    else
      let cindexDeviceOffset := cindexOffsets.At dev
      let ops := [TDeviceOp.AddDeviceFeatures devSlice cindexDeviceOffset docCount]
      match AddDeviceFeatures policy result.Grid devSlice cindexDeviceOffset docCount
          features with
      | .error e => ⟨ops, .error e⟩
      | .ok (devSize, features) =>
        let result := { result with CIndexSizes := result.CIndexSizes.Set dev devSize }
        let result := { result with
          CIndexOffsets := result.CIndexOffsets.Set dev cindexDeviceOffset }
        match MirrorFeatures dev features (List.range' devSlice.Left devSlice.Size)
            result.CudaFeaturesHost with
        | .error e => ⟨ops, .error e⟩
        | .ok host =>
          let result := { result with CudaFeaturesHost := host }
          let result := { result with
            FoldsHistogram :=
              result.FoldsHistogram.Set dev (result.Grid.ComputeFoldsHistogram devSlice) }
          let result := { result with
            CudaFeaturesDevice := result.CudaFeaturesDevice.Reset layout }
          let ops := ops ++ [TDeviceOp.CudaFeaturesDeviceReset layout]
          let result := { result with
            CudaFeaturesDevice := result.CudaFeaturesDevice.Write features }
          let ops := ops ++ [TDeviceOp.CudaFeaturesDeviceWrite features]
          let result := { result with
            BinFeatures := BuildBinaryFeatures result.Grid ⟨0, features.length⟩ }
          let result := { result with
            BinFeatureCount := result.BinFeatureCount.Set dev result.BinFeatures.length }
          AssertAndFinish dev ops result

/-- Decoding of one sample of a feature from its word of the compressed index,
`(word >> shift) & mask`. -/
def DecodeBin (feature : TCFeature) (word : Nat) : Nat :=
  (word >>> feature.Shift) &&& feature.Mask

/-- The value the Column Writer stores into a word of the compressed index for one sample:
the old word with the feature's bits OR-ed in at the feature's position (32-bit
arithmetic). -/
def MergeBin (feature : TCFeature) (word bin : Nat) : Nat :=
  word ||| (((bin &&& feature.Mask) <<< feature.Shift) % 2 ^ 32)

/-- The loop of the Column Writer over the samples `i, i + 1, ...` of the remaining
bins: sample `i` lives in word `feature.Offset + i`. -/
def WriteCompressedFeatureLoop (feature : TCFeature) :
    List Nat → Nat → List Nat → Except TError (List Nat)
  | [], _, cindex => .ok cindex
  | bin :: rest, i, cindex =>
    match cindex[feature.Offset + i]? with
    | none => .error .IndexOutOfRange
    | some word =>
      WriteCompressedFeatureLoop feature rest (i + 1)
        (cindex.set (feature.Offset + i) (MergeBin feature word bin))

/-- Modelled from the spec: `WriteCompressedFeature(feature, bins, compressedIndex)`
(not part of the excerpt; spec sections 2 and 4.4): the Column Writer "merges it into
the shared compressed index at the bit position given by the feature's descriptor,
leaving all other features' bits in the same words untouched", "OR-ing the feature's
bits into the appropriate words". One word per sample of the buffer's mapping; the
descriptor is the one of the buffer's device. A buffer that does not hold exactly one bin
per sample is outside the writer's contract and is reported as `IndexOutOfRange`. -/
def WriteCompressedFeature (feature : TDistributedObject TCFeature)
    (bins : TSingleBuffer Nat) (compressedIndex : List Nat) : Except TError (List Nat) :=
  if bins.Data.length ≠ bins.Mapping.Count then .error .IndexOutOfRange
  else WriteCompressedFeatureLoop (feature.At bins.Mapping.DeviceId) bins.Data 0
    compressedIndex

/-- Source lines 95-102, `WriteToCompressedIndex(feature, bins, docsMapping,
compressedIndex)`: a temporary device buffer over the sample mapping receives the bins
(`ui8` each), then the column is merged into the compressed index. -/
def WriteToCompressedIndex (feature : TDistributedObject TCFeature) (bins : List Nat)
    (docsMapping : TSingleMapping) (compressedIndex : List Nat) :
    Except TError (List Nat) :=
  let tmp : TSingleBuffer Nat := ⟨docsMapping, []⟩
  let tmp := tmp.Write (bins.map (· % 256))
  WriteCompressedFeature feature tmp compressedIndex

end NCatboostCuda

/-! ## Loss descriptions (`loss_description.h`) -/

/-- A `TString`, as its sequence of characters. -/
abbrev TString : Type := List Char

/-- A `TMap<TString, TString>`, as its list of entries in ascending key order. -/
abbrev TMap : Type := List (TString × TString)

/-- The entries of a map are in strictly ascending key order (so keys are unique). -/
def TMap.WellFormed (m : TMap) : Prop := m.Pairwise (fun a b => a.1 < b.1)

/-- Membership test `TMap::has(key)`. -/
def TMap.Has (m : TMap) (key : TString) : Bool := m.any (fun e => e.1 == key)

/-- Lookup of a key (`TMap::at(key)` when the key is present). -/
def TMap.Find (m : TMap) (key : TString) : Option TString :=
  (m.find? (fun e => e.1 == key)).map (fun e => e.2)

/-- Insert-or-overwrite, `m[key] = value`, keeping the key order. -/
def TMap.Assign : TMap → TString → TString → TMap
  | [], key, value => [(key, value)]
  | (k, v) :: rest, key, value =>
    if key < k then (key, value) :: (k, v) :: rest
    else if key = k then (key, value) :: rest
    else (k, v) :: TMap.Assign rest key value

/-- Put a character in front of the first token of a token list. -/
def ConsToFirst (c : Char) : List TString → List TString
  | [] => [[c]]
  | token :: tokens => (c :: token) :: tokens

/-- Modelled from the spec: `StringSplitter(s).Split(delim).ToList<TString>()`
(util/string/iterator.h, not part of the excerpt; the spec only names this file "a
separate, much simpler key-value parser"): the tokens between consecutive delimiters,
empty tokens kept, so a string with `n` delimiters has `n + 1` tokens and the empty
string has the single empty token. -/
def Split (delim : Char) : TString → List TString
  | [] => [[]]
  | c :: rest => if c = delim then [] :: Split delim rest else ConsToFirst c (Split delim rest)

/-- Modelled from the spec: `StringSplitter(s).SplitLimited(delim, limit).ToList<TString>()`
(util/string/iterator.h, not part of the excerpt): as `Split`, but at most `limit`
tokens; the last token is the unsplit rest of the string. -/
def SplitLimited (delim : Char) : Nat → TString → List TString
  | _, [] => [[]]
  | limit, c :: rest =>
    if limit ≤ 1 then [c :: rest]
    else if c = delim then [] :: SplitLimited delim (limit - 1) rest
    else ConsToFirst c (SplitLimited delim limit rest)

/-- The checks of the loss-description parsers that can fail, one per `CB_ENSURE`. -/
inductive TParseError where
  /-- "custom loss is missing in desctiption: " + lossDescription -/
  | LossMissing (lossDescription : TString)
  /-- tokens[0] + " loss is not supported" -/
  | LossNotSupported (name : TString)
  /-- "Metric description should not be empty" -/
  | MetricDescriptionEmpty
  /-- "Invalid metric description, it should be in the form
  "metric_name:param1=value1;...;paramN=valueN"" -/
  | InvalidMetricDescription
  /-- "No hint called " + key -/
  | NoHintCalled (key : TString)
  /-- "skip_train hint value should be true or false" -/
  | SkipTrainValue
  /-- "Hint description should not be empty" -/
  | HintDescriptionEmpty
  /-- "Invalid hints description, it should be in the form
  "hints=key1~value1|...|keyN~valueN"" -/
  | InvalidHintsDescription
  /-- "Two similar keys in hints description are not allowed" -/
  | TwoSimilarKeys
deriving DecidableEq, Repr

/-- Source lines 121-127, `ParseLossType`. The enumeration `ELossFunction` and its
`TryFromString` (enums.h and its generated parser, not part of the excerpt) are
parameters: `TryFromString name` is `some loss` exactly when `name` is the name of the
supported loss function `loss`. -/
def ParseLossType {ELossFunction : Type} (TryFromString : TString → Option ELossFunction)
    (lossDescription : TString) : Except TParseError ELossFunction :=
  let tokens := SplitLimited ':' 2 lossDescription
  if tokens.isEmpty then .error (.LossMissing lossDescription)
  else
    match TryFromString (tokens.getD 0 []) with
    | some customLoss => .ok customLoss
    | none => .error (.LossNotSupported (tokens.getD 0 []))

/-- Source lines 141-145, the loop of `ParseLossParams` over the `;`-separated tokens. -/
def ParseLossParamsLoop : List TString → TMap → Except TParseError TMap
  | [], params => .ok params
  | token :: rest, params =>
    let keyValue := SplitLimited '=' 2 token
    if keyValue.length ≠ 2 then .error .InvalidMetricDescription
    else ParseLossParamsLoop rest (params.Assign (keyValue.getD 0 []) (keyValue.getD 1 []))

/-- Source lines 129-148, `ParseLossParams`. -/
def ParseLossParams (lossDescription : TString) : Except TParseError TMap :=
  let tokens := SplitLimited ':' 2 lossDescription
  if tokens.isEmpty then .error .MetricDescriptionEmpty
  else if ¬ tokens.length ≤ 2 then .error .InvalidMetricDescription
  else
    let params : TMap := []
    if tokens.length = 2 then
      let paramsTokens := Split ';' (tokens.getD 1 [])
      ParseLossParamsLoop paramsTokens params
    else .ok params

/-- Source lines 155-157, the loop of `ValidateHints` over the entries of the map;
`availableHints` is the set containing only "skip_train". -/
def ValidateHintsLoop : TMap → Except TParseError Unit
  | [] => .ok ()
  | hint :: rest =>
    if hint.1 ∈ ["skip_train".toList] then ValidateHintsLoop rest
    else .error (.NoHintCalled hint.1)

/-- Source lines 150-163, `ValidateHints`. -/
def ValidateHints (hints : TMap) : Except TParseError Unit :=
  match ValidateHintsLoop hints with
  | .error e => .error e
  | .ok () =>
    if hints.Has "skip_train".toList then
      match hints.Find "skip_train".toList with
      | some value =>
        if value = "true".toList ∨ value = "false".toList then .ok ()
        else .error .SkipTrainValue
      | none => .ok ()
    else .ok ()

/-- Source lines 173-178, the loop of `ParseHintsDescription` over the `|`-separated
tokens. -/
def ParseHintsLoop : List TString → TMap → Except TParseError TMap
  | [], hints => .ok hints
  | token :: rest, hints =>
    let keyValue := SplitLimited '~' 2 token
    if keyValue.length ≠ 2 then .error .InvalidHintsDescription
    else if hints.Has (keyValue.getD 0 []) then .error .TwoSimilarKeys
    else ParseHintsLoop rest (hints.Assign (keyValue.getD 0 []) (keyValue.getD 1 []))

/-- Source lines 165-183, `ParseHintsDescription`. -/
def ParseHintsDescription (hintsDescription : TString) : Except TParseError TMap :=
  let tokens := Split '|' hintsDescription
  if tokens.isEmpty then .error .HintDescriptionEmpty
  else
    match ParseHintsLoop tokens [] with
    | .error e => .error e
    | .ok hints =>
      match ValidateHints hints with
      | .error e => .error e
      | .ok () => .ok hints

/-! ### The documented form of a metric description -/

/-- The strings of a list, separated by `sep`. -/
def JoinWith (sep : Char) : List TString → TString
  | [] => []
  | [token] => token
  | token :: next :: tokens => token ++ sep :: JoinWith sep (next :: tokens)

/-- One parameter, written `key=value`. -/
def ParamToken (param : TString × TString) : TString := param.1 ++ '=' :: param.2

/-- The form documented by the error message of `ParseLossParams`,
`metric_name:param1=value1;...;paramN=valueN`, for a name and a list of parameters. -/
def MetricDescription (name : TString) (params : List (TString × TString)) : TString :=
  name ++ ':' :: JoinWith ';' (params.map ParamToken)

/-- A string without any of the separators `:`, `;`, `=`. -/
def IsPlain (s : TString) : Prop := ':' ∉ s ∧ ';' ∉ s ∧ '=' ∉ s

instance (s : TString) : Decidable (IsPlain s) := by
  unfold IsPlain
  exact inferInstance

/-! ## Concrete inputs used to exercise the definitions -/

namespace NCatboostCuda

open NCudaLib

/-- A sample policy: sixteen bins at most, four bits per feature, eight features per
32-bit word. -/
def SamplePolicy : TGroupingPolicy where
  MaxBins := 16
  Describe := fun seen bins loadOffset docCount =>
    ⟨loadOffset + (seen.length / 8) * docCount, 15, 4 * (seen.length % 8), bins⟩
  WordCount := fun seen docCount => ((seen.length + 7) / 8) * docCount

/-- A sample binarization: feature `id` has `id + 2` bins and `id + 1` split
candidates. -/
def SampleInfo : TFeaturesBinarizationDescription where
  GetBinCount := fun id => id + 2
  GetSplitCount := fun id => id + 1

/-- Sample index offsets: device `d` starts at word `7 + d`. -/
def SampleOffsets : TDistributedObject Nat := fun d => 7 + d

end NCatboostCuda

/-- A sample of supported loss functions. -/
inductive ESampleLoss where
  | RMSE
  | Logloss
  | Quantile
deriving DecidableEq, Repr

/-- The names of the sample loss functions. -/
def SampleTryFromString (name : TString) : Option ESampleLoss :=
  if name = "RMSE".toList then some .RMSE
  else if name = "Logloss".toList then some .Logloss
  else if name = "Quantile".toList then some .Quantile
  else none

/-! ## Properties of the single-device layout builder -/

namespace NCatboostCuda

open NCudaLib

theorem mem_TSetInsert (s : List Nat) (d x : Nat) : x ∈ TSetInsert s d ↔ x = d ∨ x ∈ s := by
  unfold TSetInsert
  split
  · constructor
    · intro h; exact Or.inr h
    · rintro (rfl | h)
      · assumption
      · exact h
  · simp [List.mem_orderedInsert]

theorem nodup_TSetInsert (s : List Nat) (d : Nat) (h : s.Nodup) : (TSetInsert s d).Nodup := by
  unfold TSetInsert
  split
  · exact h
  · rename_i hd
    exact ((List.perm_orderedInsert (· ≤ ·) d s).nodup_iff).mpr (List.nodup_cons.mpr ⟨hd, h⟩)

theorem mem_foldl_TSetInsert (l s : List Nat) (x : Nat) :
    x ∈ l.foldl TSetInsert s ↔ x ∈ l ∨ x ∈ s := by
  induction l generalizing s with
  | nil => simp
  | cons a l ih =>
    simp only [List.foldl_cons, ih, mem_TSetInsert, List.mem_cons]
    tauto

theorem nodup_foldl_TSetInsert (l s : List Nat) (h : s.Nodup) :
    (l.foldl TSetInsert s).Nodup := by
  induction l generalizing s with
  | nil => simpa using h
  | cons a l ih => exact ih _ (nodup_TSetInsert s a h)

/-- The set built by `GetActiveDevice` is a singleton exactly when the reported list has
exactly one distinct element. -/
theorem devices_length_eq_one_iff (l : List Nat) :
    (l.foldl TSetInsert []).length = 1 ↔ ∃! d, d ∈ l := by
  have hmem : ∀ x, x ∈ l.foldl TSetInsert [] ↔ x ∈ l := fun x => by
    simp [mem_foldl_TSetInsert]
  have hnd : (l.foldl TSetInsert []).Nodup := nodup_foldl_TSetInsert l [] List.nodup_nil
  constructor
  · intro h
    obtain ⟨d, hd⟩ := List.length_eq_one.mp h
    refine ⟨d, (hmem d).mp (by simp [hd]), ?_⟩
    intro y hy
    have := (hmem y).mpr hy
    rw [hd] at this
    simpa using this
  · rintro ⟨d, hd, huniq⟩
    generalize hs : l.foldl TSetInsert [] = s at hmem hnd
    match s, hmem, hnd with
    | [], hmem, _ => exact absurd ((hmem d).mpr hd) (by simp)
    | [_], _, _ => rfl
    | a :: b :: t, hmem, hnd =>
      have ha : a = d := huniq a ((hmem a).mp (by simp))
      have hb : b = d := huniq b ((hmem b).mp (by simp))
      subst ha hb
      simp at hnd

theorem GetActiveDevice_ok_iff (l : List Nat) (d : Nat) :
    GetActiveDevice l = .ok d ↔ d ∈ l ∧ ∀ x ∈ l, x = d := by
  have hmem : ∀ x, x ∈ l.foldl TSetInsert [] ↔ x ∈ l := fun x => by
    simp [mem_foldl_TSetInsert]
  unfold GetActiveDevice
  simp only
  split
  · rename_i h
    obtain ⟨e, he⟩ := List.length_eq_one.mp h
    rw [he] at hmem
    simp only [he, List.headD_cons, Except.ok.injEq]
    constructor
    · rintro rfl
      exact ⟨(hmem e).mp (by simp), fun x hx => by simpa using (hmem x).mpr hx⟩
    · rintro ⟨hd, _⟩
      have := (hmem d).mpr hd
      simp only [List.mem_singleton] at this
      exact this.symm
  · rename_i h
    constructor
    · intro h'; cases h'
    · rintro ⟨hd, hall⟩
      exact absurd ((devices_length_eq_one_iff l).mpr ⟨d, hd, hall⟩) h

theorem GetActiveDevice_error (l : List Nat) (e : TError) (h : GetActiveDevice l = .error e) :
    e = .ActiveDeviceCheck := by
  unfold GetActiveDevice at h
  simp only at h
  split at h
  · cases h
  · cases h; rfl

/-- The feature block returned on the successful path, from the values computed on the
way. -/
theorem CreateFeaturesBlock_ok (policy : TGroupingPolicy) (activeDevices featureIds : List Nat)
    (info : TFeaturesBinarizationDescription) (docsMapping : TSingleMapping)
    (cindexOffsets : TDistributedObject Nat) (layout : TSingleMapping) (devSize : Nat)
    (features : List TCFeature) (host : List (TDistributedObject TCFeature))
    (hlayout : CreateLayout activeDevices (featureIds.length % 2 ^ 32) = .ok layout)
    (hslice : layout.DeviceSlice docsMapping.GetDeviceId = ⟨0, featureIds.length⟩)
    (hhelper : AddDeviceFeatures policy (TCpuGrid.Create info featureIds)
      ⟨0, featureIds.length⟩ (cindexOffsets.At docsMapping.GetDeviceId)
      docsMapping.GetObjectsSlice.Size [] = .ok (devSize, features))
    (hmirror : MirrorFeatures docsMapping.GetDeviceId features
      (List.range' 0 featureIds.length)
      (List.replicate featureIds.length (CreateDistributedObject default)) = .ok host) :
    CreateFeaturesBlock policy activeDevices featureIds info docsMapping cindexOffsets =
      ⟨[TDeviceOp.AddDeviceFeatures ⟨0, featureIds.length⟩
          (cindexOffsets.At docsMapping.GetDeviceId) docsMapping.GetObjectsSlice.Size,
        TDeviceOp.CudaFeaturesDeviceReset layout,
        TDeviceOp.CudaFeaturesDeviceWrite features,
        TDeviceOp.BinFeaturesForBestSplitsReset
          ⟨docsMapping.GetDeviceId,
            (BuildBinaryFeatures (TCpuGrid.Create info featureIds) ⟨0, features.length⟩).length⟩,
        TDeviceOp.BinFeaturesForBestSplitsWrite
          (BuildBinaryFeatures (TCpuGrid.Create info featureIds) ⟨0, features.length⟩)],
       .ok
        { Grid := TCpuGrid.Create info featureIds
          CudaFeaturesHost := host
          Samples := docsMapping
          CIndexSizes := (CreateDistributedObject 0).Set docsMapping.GetDeviceId devSize
          CIndexOffsets := (CreateDistributedObject 0).Set docsMapping.GetDeviceId
            (cindexOffsets.At docsMapping.GetDeviceId)
          FoldsHistogram := (CreateDistributedObject ⟨[]⟩).Set docsMapping.GetDeviceId
            ((TCpuGrid.Create info featureIds).ComputeFoldsHistogram ⟨0, featureIds.length⟩)
          CudaFeaturesDevice := ⟨layout, features⟩
          BinFeatures := BuildBinaryFeatures (TCpuGrid.Create info featureIds)
            ⟨0, features.length⟩
          BinFeatureCount := (CreateDistributedObject 0).Set docsMapping.GetDeviceId
            (BuildBinaryFeatures (TCpuGrid.Create info featureIds) ⟨0, features.length⟩).length
          HistogramsMapping := ⟨docsMapping.GetDeviceId,
            (BuildBinaryFeatures (TCpuGrid.Create info featureIds) ⟨0, features.length⟩).length⟩
          BinFeaturesForBestSplits := ⟨⟨docsMapping.GetDeviceId,
            (BuildBinaryFeatures (TCpuGrid.Create info featureIds) ⟨0, features.length⟩).length⟩,
            BuildBinaryFeatures (TCpuGrid.Create info featureIds) ⟨0, features.length⟩⟩ }⟩ := by
  unfold CreateFeaturesBlock
  simp only [hlayout, hslice]
  have hgrid : (TFeaturesBlock.New (TCpuGrid.Create info featureIds)).Grid =
      TCpuGrid.Create info featureIds := rfl
  have hids : (TCpuGrid.Create info featureIds).FeatureIds = featureIds := rfl
  have hres : Resize (TFeaturesBlock.New (TCpuGrid.Create info featureIds)).CudaFeaturesHost
      featureIds.length (CreateDistributedObject (default : TCFeature)) =
      List.replicate featureIds.length (CreateDistributedObject default) := by
    simp [Resize, TFeaturesBlock.New]
  have hsize : (⟨0, featureIds.length⟩ : TSlice).Size = featureIds.length := rfl
  simp only [hgrid, hids, hres, hhelper, hsize, hmirror, ne_eq,
    not_true_eq_false, if_false]
  simp [AssertAndFinish, TDistributedObject.At, TDistributedObject.Set, TSingleBuffer.Reset,
    TSingleBuffer.Write, TFeaturesBlock.New]


theorem CreateLayout_ok_iff (activeDevices : List Nat) (featureCount : Nat)
    (layout : TSingleMapping) :
    CreateLayout activeDevices featureCount = .ok layout ↔
      GetActiveDevice activeDevices = .ok layout.DeviceId ∧ layout.Count = featureCount := by
  unfold CreateLayout
  cases h : GetActiveDevice activeDevices with
  | error e => simp
  | ok d =>
    cases layout with
    | mk dev count =>
      simp only [Except.ok.injEq, TSingleMapping.mk.injEq]
      constructor
      · rintro ⟨rfl, rfl⟩; exact ⟨rfl, rfl⟩
      · rintro ⟨rfl, rfl⟩; exact ⟨rfl, rfl⟩

theorem CreateLayout_error (activeDevices : List Nat) (featureCount : Nat) (e : TError)
    (h : CreateLayout activeDevices featureCount = .error e) : e = .ActiveDeviceCheck := by
  unfold CreateLayout at h
  cases hd : GetActiveDevice activeDevices with
  | error e' =>
    rw [hd] at h
    cases h
    exact GetActiveDevice_error _ _ hd
  | ok d => rw [hd] at h; cases h

theorem CreateFeaturesBlock_layout_error (policy : TGroupingPolicy)
    (activeDevices featureIds : List Nat) (info : TFeaturesBinarizationDescription)
    (docsMapping : TSingleMapping) (cindexOffsets : TDistributedObject Nat) (e : TError)
    (hlayout : CreateLayout activeDevices (featureIds.length % 2 ^ 32) = .error e) :
    CreateFeaturesBlock policy activeDevices featureIds info docsMapping cindexOffsets =
      ⟨[], .error .ActiveDeviceCheck⟩ := by
  have he := CreateLayout_error _ _ _ hlayout
  subst he
  unfold CreateFeaturesBlock
  simp only [hlayout]

theorem CreateFeaturesBlock_slice_left (policy : TGroupingPolicy)
    (activeDevices featureIds : List Nat) (info : TFeaturesBinarizationDescription)
    (docsMapping : TSingleMapping) (cindexOffsets : TDistributedObject Nat)
    (layout : TSingleMapping)
    (hlayout : CreateLayout activeDevices (featureIds.length % 2 ^ 32) = .ok layout)
    (hleft : (layout.DeviceSlice docsMapping.GetDeviceId).Left ≠ 0) :
    CreateFeaturesBlock policy activeDevices featureIds info docsMapping cindexOffsets =
      ⟨[], .error .SliceLeftCheck⟩ := by
  unfold CreateFeaturesBlock
  simp only [hlayout, hleft, ne_eq, not_false_eq_true, if_true]

theorem CreateFeaturesBlock_slice_right (policy : TGroupingPolicy)
    (activeDevices featureIds : List Nat) (info : TFeaturesBinarizationDescription)
    (docsMapping : TSingleMapping) (cindexOffsets : TDistributedObject Nat)
    (layout : TSingleMapping)
    (hlayout : CreateLayout activeDevices (featureIds.length % 2 ^ 32) = .ok layout)
    (hleft : (layout.DeviceSlice docsMapping.GetDeviceId).Left = 0)
    (hright : (layout.DeviceSlice docsMapping.GetDeviceId).Right ≠ featureIds.length) :
    CreateFeaturesBlock policy activeDevices featureIds info docsMapping cindexOffsets =
      ⟨[], .error .SliceRightCheck⟩ := by
  unfold CreateFeaturesBlock
  simp only [hlayout, hleft, hright, ne_eq, not_true_eq_false, not_false_eq_true, if_true,
    if_false]

theorem CreateFeaturesBlock_helper_error (policy : TGroupingPolicy)
    (activeDevices featureIds : List Nat) (info : TFeaturesBinarizationDescription)
    (docsMapping : TSingleMapping) (cindexOffsets : TDistributedObject Nat)
    (layout : TSingleMapping) (e : TError)
    (hlayout : CreateLayout activeDevices (featureIds.length % 2 ^ 32) = .ok layout)
    (hslice : layout.DeviceSlice docsMapping.GetDeviceId = ⟨0, featureIds.length⟩)
    (hhelper : AddDeviceFeatures policy (TCpuGrid.Create info featureIds)
      ⟨0, featureIds.length⟩ (cindexOffsets.At docsMapping.GetDeviceId)
      docsMapping.GetObjectsSlice.Size [] = .error e) :
    CreateFeaturesBlock policy activeDevices featureIds info docsMapping cindexOffsets =
      ⟨[TDeviceOp.AddDeviceFeatures ⟨0, featureIds.length⟩
          (cindexOffsets.At docsMapping.GetDeviceId) docsMapping.GetObjectsSlice.Size],
       .error e⟩ := by
  unfold CreateFeaturesBlock
  simp only [hlayout, hslice]
  have hgrid : (TFeaturesBlock.New (TCpuGrid.Create info featureIds)).Grid =
      TCpuGrid.Create info featureIds := rfl
  simp only [hgrid, hhelper, ne_eq, not_true_eq_false, if_false]

theorem CreateFeaturesBlock_mirror_error (policy : TGroupingPolicy)
    (activeDevices featureIds : List Nat) (info : TFeaturesBinarizationDescription)
    (docsMapping : TSingleMapping) (cindexOffsets : TDistributedObject Nat)
    (layout : TSingleMapping) (devSize : Nat) (features : List TCFeature) (e : TError)
    (hlayout : CreateLayout activeDevices (featureIds.length % 2 ^ 32) = .ok layout)
    (hslice : layout.DeviceSlice docsMapping.GetDeviceId = ⟨0, featureIds.length⟩)
    (hhelper : AddDeviceFeatures policy (TCpuGrid.Create info featureIds)
      ⟨0, featureIds.length⟩ (cindexOffsets.At docsMapping.GetDeviceId)
      docsMapping.GetObjectsSlice.Size [] = .ok (devSize, features))
    (hmirror : MirrorFeatures docsMapping.GetDeviceId features
      (List.range' 0 featureIds.length)
      (List.replicate featureIds.length (CreateDistributedObject default)) = .error e) :
    CreateFeaturesBlock policy activeDevices featureIds info docsMapping cindexOffsets =
      ⟨[TDeviceOp.AddDeviceFeatures ⟨0, featureIds.length⟩
          (cindexOffsets.At docsMapping.GetDeviceId) docsMapping.GetObjectsSlice.Size],
       .error e⟩ := by
  unfold CreateFeaturesBlock
  simp only [hlayout, hslice]
  have hgrid : (TFeaturesBlock.New (TCpuGrid.Create info featureIds)).Grid =
      TCpuGrid.Create info featureIds := rfl
  have hids : (TCpuGrid.Create info featureIds).FeatureIds = featureIds := rfl
  have hres : Resize (TFeaturesBlock.New (TCpuGrid.Create info featureIds)).CudaFeaturesHost
      featureIds.length (CreateDistributedObject (default : TCFeature)) =
      List.replicate featureIds.length (CreateDistributedObject default) := by
    simp [Resize, TFeaturesBlock.New]
  have hsize : (⟨0, featureIds.length⟩ : TSlice).Size = featureIds.length := rfl
  simp only [hgrid, hids, hres, hhelper, hsize, hmirror, ne_eq,
    not_true_eq_false, if_false]

theorem AddDeviceFeaturesLoop_length (policy : TGroupingPolicy) (grid : TCpuGrid)
    (loadOffset docCount : Nat) (idxs seen : List Nat) (features : List TCFeature)
    (seen' : List Nat) (out : List TCFeature)
    (h : AddDeviceFeaturesLoop policy grid loadOffset docCount idxs seen features =
      .ok (seen', out)) :
    out.length = features.length + idxs.length := by
  induction idxs generalizing seen features with
  | nil =>
    simp only [AddDeviceFeaturesLoop, Except.ok.injEq, Prod.mk.injEq] at h
    simp [h.2]
  | cons f rest ih =>
    simp only [AddDeviceFeaturesLoop] at h
    split at h
    · cases h
    · split at h
      · cases h
      · have := ih _ _ h
        simp only [List.length_append, List.length_singleton, List.length_cons,
          List.length_nil] at this ⊢
        omega

theorem AddDeviceFeaturesLoop_ok (policy : TGroupingPolicy) (grid : TCpuGrid)
    (loadOffset docCount : Nat) (idxs seen : List Nat) (features : List TCFeature)
    (h : ∀ f ∈ idxs, ∃ b, grid.BinCounts[f]? = some b ∧ b ≤ policy.MaxBins) :
    ∃ r, AddDeviceFeaturesLoop policy grid loadOffset docCount idxs seen features = .ok r := by
  induction idxs generalizing seen features with
  | nil => exact ⟨_, rfl⟩
  | cons f rest ih =>
    obtain ⟨b, hb, hle⟩ := h f (List.mem_cons_self _ _)
    simp only [AddDeviceFeaturesLoop, hb, Nat.not_lt.mpr hle, if_false]
    exact ih _ _ (fun g hg => h g (List.mem_cons_of_mem _ hg))

theorem AddDeviceFeaturesLoop_error (policy : TGroupingPolicy) (grid : TCpuGrid)
    (loadOffset docCount : Nat) (idxs seen : List Nat) (features : List TCFeature)
    (e : TError) (hin : ∀ f ∈ idxs, f < grid.BinCounts.length)
    (h : AddDeviceFeaturesLoop policy grid loadOffset docCount idxs seen features = .error e) :
    ∃ f ∈ idxs, e = .BinCountCheck f ∧
      ∃ b, grid.BinCounts[f]? = some b ∧ policy.MaxBins < b := by
  induction idxs generalizing seen features with
  | nil => simp [AddDeviceFeaturesLoop] at h
  | cons f rest ih =>
    simp only [AddDeviceFeaturesLoop] at h
    split at h
    · rename_i hnone
      have := hin f (List.mem_cons_self _ _)
      rw [List.getElem?_eq_none_iff] at hnone
      omega
    · rename_i b hb
      split at h
      · rename_i hlt
        cases h
        exact ⟨f, List.mem_cons_self _ _, rfl, b, hb, hlt⟩
      · obtain ⟨g, hg, hrest⟩ := ih _ _ (fun g hg => hin g (List.mem_cons_of_mem _ hg)) h
        exact ⟨g, List.mem_cons_of_mem _ hg, hrest⟩

theorem MirrorFeatures_ok (dev : Nat) (features : List TCFeature) (idxs : List Nat)
    (host : List (TDistributedObject TCFeature))
    (h : ∀ i ∈ idxs, i < host.length ∧ i < features.length) :
    ∃ host', MirrorFeatures dev features idxs host = .ok host' := by
  induction idxs generalizing host with
  | nil => exact ⟨_, rfl⟩
  | cons i rest ih =>
    obtain ⟨h1, h2⟩ := h i (List.mem_cons_self _ _)
    simp only [MirrorFeatures, List.getElem?_eq_getElem h1, List.getElem?_eq_getElem h2]
    apply ih
    intro j hj
    have := h j (List.mem_cons_of_mem _ hj)
    simpa using this

theorem MirrorFeatures_spec (dev : Nat) (features : List TCFeature) (idxs : List Nat)
    (host host' : List (TDistributedObject TCFeature))
    (h : MirrorFeatures dev features idxs host = .ok host') :
    host'.length = host.length ∧
      (∀ j ∈ idxs, ∃ o f, host'[j]? = some o ∧ features[j]? = some f ∧ o.At dev = f) ∧
      (∀ j, j ∉ idxs → host'[j]? = host[j]?) := by
  induction idxs generalizing host with
  | nil =>
    simp only [MirrorFeatures, Except.ok.injEq] at h
    subst h
    simp
  | cons i rest ih =>
    simp only [MirrorFeatures] at h
    split at h
    · rename_i o f ho hf
      obtain ⟨hlen, hin, hout⟩ := ih _ h
      have hi : i < host.length := by
        by_contra hc
        rw [List.getElem?_eq_none (by omega)] at ho
        cases ho
      refine ⟨by simpa using hlen, ?_, ?_⟩
      · intro j hj
        by_cases hjr : j ∈ rest
        · exact hin j hjr
        · have hji : j = i := by
            rcases List.mem_cons.mp hj with h | h
            · exact h
            · exact absurd h hjr
          subst hji
          refine ⟨o.Set dev f, f, ?_, hf, ?_⟩
          · rw [hout j hjr]
            simp [List.getElem?_set, hi]
          · simp [TDistributedObject.At, TDistributedObject.Set]
      · intro j hj
        have hjr : j ∉ rest := fun hc => hj (List.mem_cons_of_mem _ hc)
        have hji : i ≠ j := fun hc => hj (hc ▸ List.mem_cons_self _ _)
        rw [hout j hjr]
        simp [List.getElem?_set, hji]
    · cases h

theorem AddDeviceFeatures_length (policy : TGroupingPolicy) (grid : TCpuGrid) (slice : TSlice)
    (loadOffset docCount : Nat) (features : List TCFeature) (devSize : Nat)
    (out : List TCFeature)
    (h : AddDeviceFeatures policy grid slice loadOffset docCount features = .ok (devSize, out)) :
    out.length = features.length + slice.Size := by
  unfold AddDeviceFeatures at h
  split at h
  · cases h
  · rename_i seen out' hloop
    simp only [Except.ok.injEq, Prod.mk.injEq] at h
    have := AddDeviceFeaturesLoop_length _ _ _ _ _ _ _ _ _ hloop
    rw [← h.2]
    simpa using this

theorem BinCounts_Create (info : TFeaturesBinarizationDescription) (featureIds : List Nat)
    (f : Nat) :
    (TCpuGrid.Create info featureIds).BinCounts[f]? = (featureIds[f]?).map info.GetBinCount := by
  simp [TCpuGrid.Create]

/-- On a grid built from the requested ids the helper reads the grid in bounds: it can
only fail by rejecting a bin count. -/
theorem AddDeviceFeatures_error (policy : TGroupingPolicy)
    (info : TFeaturesBinarizationDescription) (featureIds : List Nat)
    (loadOffset docCount : Nat) (e : TError)
    (h : AddDeviceFeatures policy (TCpuGrid.Create info featureIds) ⟨0, featureIds.length⟩
      loadOffset docCount [] = .error e) :
    ∃ f id, featureIds[f]? = some id ∧ e = .BinCountCheck f ∧
      policy.MaxBins < info.GetBinCount id := by
  unfold AddDeviceFeatures at h
  split at h
  · rename_i e' hloop
    cases h
    have hin : ∀ f ∈ List.range' (⟨0, featureIds.length⟩ : TSlice).Left
        (⟨0, featureIds.length⟩ : TSlice).Size,
        f < (TCpuGrid.Create info featureIds).BinCounts.length := by
      intro f hf
      simp [TSlice.Size, List.mem_range'_1] at hf
      simpa [TCpuGrid.Create] using hf
    obtain ⟨f, _, he, b, hb, hlt⟩ := AddDeviceFeaturesLoop_error _ _ _ _ _ _ _ _ hin hloop
    rw [BinCounts_Create] at hb
    cases hid : featureIds[f]? with
    | none => rw [hid] at hb; cases hb
    | some id =>
      rw [hid] at hb
      simp only [Option.map_some', Option.some.injEq] at hb
      exact ⟨f, id, hid, he, hb ▸ hlt⟩
  · cases h

theorem AddDeviceFeatures_ok (policy : TGroupingPolicy)
    (info : TFeaturesBinarizationDescription) (featureIds : List Nat)
    (loadOffset docCount : Nat)
    (hbins : ∀ id ∈ featureIds, info.GetBinCount id ≤ policy.MaxBins) :
    ∃ devSize features, AddDeviceFeatures policy (TCpuGrid.Create info featureIds)
      ⟨0, featureIds.length⟩ loadOffset docCount [] = .ok (devSize, features) := by
  cases h : AddDeviceFeatures policy (TCpuGrid.Create info featureIds)
      ⟨0, featureIds.length⟩ loadOffset docCount [] with
  | ok r => exact ⟨r.1, r.2, rfl⟩
  | error e =>
    obtain ⟨f, id, hid, _, hlt⟩ := AddDeviceFeatures_error _ _ _ _ _ _ h
    have := hbins id (List.getElem?_mem hid)
    omega

/-- The mirroring loop of the builder stays in bounds whenever the helper emitted one
descriptor per feature. -/
theorem MirrorFeatures_builder_ok (dev : Nat) (features : List TCFeature) (n : Nat)
    (hlen : features.length = n) :
    ∃ host, MirrorFeatures dev features (List.range' 0 n)
      (List.replicate n (CreateDistributedObject default)) = .ok host := by
  apply MirrorFeatures_ok
  intro i hi
  simp [List.mem_range'_1] at hi
  simp [hlen, hi]

/-- Every successful run went through the four stages below; with
`CreateFeaturesBlock_ok` this determines the run completely. -/
theorem CreateFeaturesBlock_ok_inv (policy : TGroupingPolicy)
    (activeDevices featureIds : List Nat) (info : TFeaturesBinarizationDescription)
    (docsMapping : TSingleMapping) (cindexOffsets : TDistributedObject Nat)
    (b : TFeaturesBlock)
    (h : (CreateFeaturesBlock policy activeDevices featureIds info docsMapping
      cindexOffsets).Result = .ok b) :
    ∃ layout devSize features host,
      CreateLayout activeDevices (featureIds.length % 2 ^ 32) = .ok layout ∧
      layout.DeviceSlice docsMapping.GetDeviceId = ⟨0, featureIds.length⟩ ∧
      AddDeviceFeatures policy (TCpuGrid.Create info featureIds)
        ⟨0, featureIds.length⟩ (cindexOffsets.At docsMapping.GetDeviceId)
        docsMapping.GetObjectsSlice.Size [] = .ok (devSize, features) ∧
      MirrorFeatures docsMapping.GetDeviceId features (List.range' 0 featureIds.length)
        (List.replicate featureIds.length (CreateDistributedObject default)) = .ok host := by
  cases hlayout : CreateLayout activeDevices (featureIds.length % 2 ^ 32) with
  | error e =>
    rw [CreateFeaturesBlock_layout_error _ _ _ _ _ _ _ hlayout] at h
    cases h
  | ok layout =>
    by_cases hleft : (layout.DeviceSlice docsMapping.GetDeviceId).Left = 0
    · by_cases hright : (layout.DeviceSlice docsMapping.GetDeviceId).Right = featureIds.length
      · have hslice : layout.DeviceSlice docsMapping.GetDeviceId = ⟨0, featureIds.length⟩ := by
          cases hs : layout.DeviceSlice docsMapping.GetDeviceId with
          | mk l r =>
            rw [hs] at hleft hright
            simp only at hleft hright
            rw [hleft, hright]
        cases hhelper : AddDeviceFeatures policy (TCpuGrid.Create info featureIds)
            ⟨0, featureIds.length⟩ (cindexOffsets.At docsMapping.GetDeviceId)
            docsMapping.GetObjectsSlice.Size [] with
        | error e =>
          rw [CreateFeaturesBlock_helper_error _ _ _ _ _ _ _ _ hlayout hslice hhelper] at h
          cases h
        | ok r =>
          obtain ⟨devSize, features⟩ := r
          cases hmirror : MirrorFeatures docsMapping.GetDeviceId features
              (List.range' 0 featureIds.length)
              (List.replicate featureIds.length (CreateDistributedObject default)) with
          | error e =>
            rw [CreateFeaturesBlock_mirror_error _ _ _ _ _ _ _ _ _ _ hlayout hslice hhelper
              hmirror] at h
            cases h
          | ok host => exact ⟨layout, devSize, features, host, rfl, hslice, rfl, hmirror⟩
      · rw [CreateFeaturesBlock_slice_right _ _ _ _ _ _ _ hlayout hleft hright] at h
        cases h
    · rw [CreateFeaturesBlock_slice_left _ _ _ _ _ _ _ hlayout hleft] at h
      cases h

theorem sum_AddToFold (counts : List Nat) (fold : Nat) :
    (AddToFold counts fold).sum = counts.sum + 1 := by
  induction counts generalizing fold with
  | nil =>
    induction fold with
    | zero => simp [AddToFold]
    | succ k ih => simpa [AddToFold] using ih
  | cons c counts ih =>
    cases fold with
    | zero => simp [AddToFold]; omega
    | succ k => simp [AddToFold, ih k]; omega

theorem sum_foldl_AddToFold (l : List TCBinFeature) (counts : List Nat) :
    (l.foldl (fun counts b => AddToFold counts b.BinId) counts).sum = counts.sum + l.length := by
  induction l generalizing counts with
  | nil => simp
  | cons b l ih =>
    simp only [List.foldl_cons, ih, sum_AddToFold, List.length_cons]
    omega

/-- The counts of a folds histogram add up to the number of bin-features of the slice. -/
theorem ComputeFoldsHistogram_sum (grid : TCpuGrid) (slice : TSlice) :
    (grid.ComputeFoldsHistogram slice).Counts.sum = (BuildBinaryFeatures grid slice).length := by
  simp [TCpuGrid.ComputeFoldsHistogram, sum_foldl_AddToFold]

/-- The builder never indexes a vector out of range. -/
theorem CreateFeaturesBlock_in_bounds (policy : TGroupingPolicy)
    (activeDevices featureIds : List Nat) (info : TFeaturesBinarizationDescription)
    (docsMapping : TSingleMapping) (cindexOffsets : TDistributedObject Nat) :
    (CreateFeaturesBlock policy activeDevices featureIds info docsMapping cindexOffsets).Result
      ≠ .error .IndexOutOfRange := by
  intro h
  cases hlayout : CreateLayout activeDevices (featureIds.length % 2 ^ 32) with
  | error e =>
    rw [CreateFeaturesBlock_layout_error _ _ _ _ _ _ _ hlayout] at h
    cases h
  | ok layout =>
    by_cases hleft : (layout.DeviceSlice docsMapping.GetDeviceId).Left = 0
    · by_cases hright : (layout.DeviceSlice docsMapping.GetDeviceId).Right = featureIds.length
      · have hslice : layout.DeviceSlice docsMapping.GetDeviceId = ⟨0, featureIds.length⟩ := by
          cases hs : layout.DeviceSlice docsMapping.GetDeviceId with
          | mk l r =>
            rw [hs] at hleft hright
            simp only at hleft hright
            rw [hleft, hright]
        cases hhelper : AddDeviceFeatures policy (TCpuGrid.Create info featureIds)
            ⟨0, featureIds.length⟩ (cindexOffsets.At docsMapping.GetDeviceId)
            docsMapping.GetObjectsSlice.Size [] with
        | error e =>
          rw [CreateFeaturesBlock_helper_error _ _ _ _ _ _ _ _ hlayout hslice hhelper] at h
          obtain ⟨f, _, _, he, _⟩ := AddDeviceFeatures_error _ _ _ _ _ _ hhelper
          subst he
          cases h
        | ok r =>
          obtain ⟨devSize, features⟩ := r
          have hlen : features.length = featureIds.length := by
            have := AddDeviceFeatures_length _ _ _ _ _ _ _ _ hhelper
            simpa [TSlice.Size] using this
          obtain ⟨host, hmirror⟩ := MirrorFeatures_builder_ok docsMapping.GetDeviceId features
            featureIds.length hlen
          rw [CreateFeaturesBlock_ok _ _ _ _ _ _ _ _ _ _ hlayout hslice hhelper hmirror] at h
          cases h
      · rw [CreateFeaturesBlock_slice_right _ _ _ _ _ _ _ hlayout hleft hright] at h
        cases h
    · rw [CreateFeaturesBlock_slice_left _ _ _ _ _ _ _ hlayout hleft] at h
      cases h

/-- C1: in single-device mode, whenever the device slice that the layout assigns to the
sample mapping's device is not exactly `[0, featureIds.size())` (`Left != 0` or
`Right != featureIds.size()`), `CreateFeaturesBlock` fails with a configuration error (a
failed `CB_ENSURE`) and returns no feature block. -/
theorem CreateFeaturesBlock_slice_mismatch_fails (policy : TGroupingPolicy)
    (activeDevices featureIds : List Nat) (info : TFeaturesBinarizationDescription)
    (docsMapping : TSingleMapping) (cindexOffsets : TDistributedObject Nat)
    (layout : TSingleMapping)
    (hlayout : CreateLayout activeDevices (featureIds.length % 2 ^ 32) = .ok layout)
    (hslice : (layout.DeviceSlice docsMapping.GetDeviceId).Left ≠ 0 ∨
      (layout.DeviceSlice docsMapping.GetDeviceId).Right ≠ featureIds.length) :
    (∃ e, (CreateFeaturesBlock policy activeDevices featureIds info docsMapping
        cindexOffsets).Result = .error e ∧ e.IsConfigurationError = true) ∧
      ∀ b, (CreateFeaturesBlock policy activeDevices featureIds info docsMapping
        cindexOffsets).Result ≠ .ok b := by
  by_cases hleft : (layout.DeviceSlice docsMapping.GetDeviceId).Left = 0
  · have hright : (layout.DeviceSlice docsMapping.GetDeviceId).Right ≠ featureIds.length := by
      rcases hslice with h | h
      · exact absurd hleft h
      · exact h
    rw [CreateFeaturesBlock_slice_right _ _ _ _ _ _ _ hlayout hleft hright]
    exact ⟨⟨_, rfl, rfl⟩, fun b hb => by cases hb⟩
  · rw [CreateFeaturesBlock_slice_left _ _ _ _ _ _ _ hlayout hleft]
    exact ⟨⟨_, rfl, rfl⟩, fun b hb => by cases hb⟩

/-- Witness for C1: one active device (0), one requested feature, samples on device 1: the
layout gives device 1 the slice `[0, 0)`, not `[0, 1)`. -/
theorem CreateFeaturesBlock_slice_mismatch_fails_witness :
    (∃ e, (CreateFeaturesBlock SamplePolicy [0] [4] SampleInfo ⟨1, 5⟩
        SampleOffsets).Result = .error e ∧ e.IsConfigurationError = true) ∧
      ∀ b, (CreateFeaturesBlock SamplePolicy [0] [4] SampleInfo ⟨1, 5⟩
        SampleOffsets).Result ≠ .ok b :=
  CreateFeaturesBlock_slice_mismatch_fails SamplePolicy [0] [4] SampleInfo ⟨1, 5⟩
    SampleOffsets ⟨0, 1⟩ rfl (Or.inr (by decide))

/-- C2 as stated fails for `CreateFeaturesBlock`: with exactly one distinct active device
(device 0, resp. device 2) the builder still fails, at the device-slice check when the
samples live on another device, and in the Grouping Policy Helper when a bin count (22
bins for feature id 20) exceeds the policy's sixteen. -/
theorem CreateFeaturesBlock_one_device_still_fails :
    (∃! d, d ∈ [0]) ∧ GetActiveDevice [0] = .ok 0 ∧
      (CreateFeaturesBlock SamplePolicy [0] [4] SampleInfo ⟨1, 5⟩ SampleOffsets).Result =
        .error .SliceRightCheck ∧
      (∃! d, d ∈ [2]) ∧ GetActiveDevice [2] = .ok 2 ∧
      (CreateFeaturesBlock SamplePolicy [2] [4, 20] SampleInfo ⟨2, 5⟩ SampleOffsets).Result =
        .error (.BinCountCheck 1) :=
  ⟨⟨0, by simp, by simp⟩, rfl, rfl, ⟨2, by simp, by simp⟩, rfl, rfl⟩

/-- C2 (amended): `GetActiveDevice` and `CreateLayout` succeed if and only if the list of
active devices contains exactly one distinct device id; on success `GetActiveDevice`
returns that id and `CreateLayout(featureCount)` is the single mapping on that device
with `featureCount` elements; both fail with the active-device error for no active
device and for two distinct ones. `CreateFeaturesBlock` succeeds only if the list
contains exactly one distinct device id. -/
theorem GetActiveDevice_iff_one_distinct_device (activeDevices : List Nat) :
    ((∃ d, GetActiveDevice activeDevices = .ok d) ↔ ∃! d, d ∈ activeDevices) ∧
      (∀ d, GetActiveDevice activeDevices = .ok d ↔
        d ∈ activeDevices ∧ ∀ x ∈ activeDevices, x = d) ∧
      (∀ featureCount,
        (∃ layout, CreateLayout activeDevices featureCount = .ok layout) ↔
          ∃! d, d ∈ activeDevices) ∧
      (∀ featureCount layout, CreateLayout activeDevices featureCount = .ok layout ↔
        GetActiveDevice activeDevices = .ok layout.DeviceId ∧ layout.Count = featureCount) ∧
      (∀ policy featureIds info docsMapping cindexOffsets b,
        (CreateFeaturesBlock policy activeDevices featureIds info docsMapping
          cindexOffsets).Result = .ok b → ∃! d, d ∈ activeDevices) ∧
      (activeDevices = [] → ∀ featureCount,
        GetActiveDevice activeDevices = .error .ActiveDeviceCheck ∧
        CreateLayout activeDevices featureCount = .error .ActiveDeviceCheck) ∧
      (∀ a b, a ∈ activeDevices → b ∈ activeDevices → a ≠ b → ∀ featureCount,
        GetActiveDevice activeDevices = .error .ActiveDeviceCheck ∧
        CreateLayout activeDevices featureCount = .error .ActiveDeviceCheck) := by
  have hiff : (∃ d, GetActiveDevice activeDevices = .ok d) ↔ ∃! d, d ∈ activeDevices := by
    constructor
    · rintro ⟨d, hd⟩
      obtain ⟨h1, h2⟩ := (GetActiveDevice_ok_iff _ _).mp hd
      exact ⟨d, h1, h2⟩
    · rintro ⟨d, h1, h2⟩
      exact ⟨d, (GetActiveDevice_ok_iff _ _).mpr ⟨h1, h2⟩⟩
  have hlay : ∀ featureCount,
      (∃ layout, CreateLayout activeDevices featureCount = .ok layout) ↔
        ∃! d, d ∈ activeDevices := by
    intro featureCount
    rw [← hiff]
    constructor
    · rintro ⟨layout, hl⟩
      exact ⟨layout.DeviceId, ((CreateLayout_ok_iff _ _ _).mp hl).1⟩
    · rintro ⟨d, hd⟩
      exact ⟨⟨d, featureCount⟩, (CreateLayout_ok_iff _ _ _).mpr ⟨hd, rfl⟩⟩
  have hfail : (¬ ∃! d, d ∈ activeDevices) → ∀ featureCount,
      GetActiveDevice activeDevices = .error .ActiveDeviceCheck ∧
      CreateLayout activeDevices featureCount = .error .ActiveDeviceCheck := by
    intro hno featureCount
    have hg : GetActiveDevice activeDevices = .error .ActiveDeviceCheck := by
      cases hg : GetActiveDevice activeDevices with
      | ok d => exact absurd (hiff.mp ⟨d, hg⟩) hno
      | error e => rw [GetActiveDevice_error _ _ hg]
    refine ⟨hg, ?_⟩
    unfold CreateLayout
    rw [hg]
  refine ⟨hiff, GetActiveDevice_ok_iff _, hlay, CreateLayout_ok_iff _, ?_, ?_, ?_⟩
  · intro policy featureIds info docsMapping cindexOffsets b hb
    obtain ⟨layout, _, _, _, hlayout, _⟩ := CreateFeaturesBlock_ok_inv _ _ _ _ _ _ _ hb
    exact (hlay _).mp ⟨layout, hlayout⟩
  · rintro rfl
    exact hfail (by rintro ⟨d, hd, _⟩; simp at hd)
  · intro a b ha hb hab
    apply hfail
    rintro ⟨d, _, huniq⟩
    exact hab ((huniq a ha).trans (huniq b hb).symm)

/-- C3: for every grid and every input whose device slice equals `[0, featureCount)`
(exactly one active device, so that the layout exists; no bin count rejected by the
Grouping Policy Helper), `CreateFeaturesBlock` succeeds, and the compressed-index size
it records for the device is the word count that `AddDeviceFeatures` returns for the
slice `[0, featureCount)`, the device's input offset and the sample count of the sample
mapping. -/
theorem CreateFeaturesBlock_records_helper_word_count (policy : TGroupingPolicy)
    (activeDevices featureIds : List Nat) (info : TFeaturesBinarizationDescription)
    (docsMapping : TSingleMapping) (cindexOffsets : TDistributedObject Nat)
    (layout : TSingleMapping)
    (hlayout : CreateLayout activeDevices (featureIds.length % 2 ^ 32) = .ok layout)
    (hslice : layout.DeviceSlice docsMapping.GetDeviceId = ⟨0, featureIds.length⟩)
    (hbins : ∀ id ∈ featureIds, info.GetBinCount id ≤ policy.MaxBins) :
    ∃ devSize features b,
      AddDeviceFeatures policy (TCpuGrid.Create info featureIds) ⟨0, featureIds.length⟩
        (cindexOffsets.At docsMapping.GetDeviceId) (docsMapping.GetObjectsSlice.Size) [] =
          .ok (devSize, features) ∧
      (CreateFeaturesBlock policy activeDevices featureIds info docsMapping
        cindexOffsets).Result = .ok b ∧
      b.CIndexSizes.At docsMapping.GetDeviceId = devSize := by
  obtain ⟨devSize, features, hhelper⟩ := AddDeviceFeatures_ok policy info featureIds
    (cindexOffsets.At docsMapping.GetDeviceId) docsMapping.GetObjectsSlice.Size hbins
  have hlen : features.length = featureIds.length := by
    have := AddDeviceFeatures_length _ _ _ _ _ _ _ _ hhelper
    simpa [TSlice.Size] using this
  obtain ⟨host, hmirror⟩ := MirrorFeatures_builder_ok docsMapping.GetDeviceId features
    featureIds.length hlen
  have hrun := CreateFeaturesBlock_ok _ _ _ _ _ _ _ _ _ _ hlayout hslice hhelper hmirror
  refine ⟨devSize, features, _, hhelper, congrArg TRun.Result hrun, ?_⟩
  simp [TDistributedObject.At, TDistributedObject.Set]

/-- Witness for C3: twelve features with at most sixteen bins on the one active device 3,
where the samples live too. -/
theorem CreateFeaturesBlock_records_helper_word_count_witness :
    ∃ devSize features b,
      AddDeviceFeatures SamplePolicy
        (TCpuGrid.Create SampleInfo [0, 1, 2, 3, 4, 5, 6, 7, 8, 9, 10, 14])
        ⟨0, [0, 1, 2, 3, 4, 5, 6, 7, 8, 9, 10, 14].length⟩
        (SampleOffsets.At (⟨3, 5⟩ : TSingleMapping).GetDeviceId)
        ((⟨3, 5⟩ : TSingleMapping).GetObjectsSlice.Size) [] = .ok (devSize, features) ∧
      (CreateFeaturesBlock SamplePolicy [3, 3] [0, 1, 2, 3, 4, 5, 6, 7, 8, 9, 10, 14]
        SampleInfo ⟨3, 5⟩ SampleOffsets).Result = .ok b ∧
      b.CIndexSizes.At (⟨3, 5⟩ : TSingleMapping).GetDeviceId = devSize :=
  CreateFeaturesBlock_records_helper_word_count SamplePolicy [3, 3]
    [0, 1, 2, 3, 4, 5, 6, 7, 8, 9, 10, 14] SampleInfo ⟨3, 5⟩ SampleOffsets ⟨3, 12⟩ rfl rfl
    (by decide)

/-- C4 as stated fails for an empty `featureIds`: the only active device is 0, the samples
live on device 1, the builder succeeds and records under device 1 (offset 8, the value of
`cindexOffsets` for device 1; histogram mapping on device 1), leaving device 0 at its
initial values. -/
theorem CreateFeaturesBlock_records_on_inactive_device :
    GetActiveDevice [0] = .ok 0 ∧
      ∃ b, (CreateFeaturesBlock SamplePolicy [0] [] SampleInfo ⟨1, 5⟩ SampleOffsets).Result =
          .ok b ∧
        b.CIndexSizes = (CreateDistributedObject 0).Set 1 0 ∧
        b.CIndexOffsets = (CreateDistributedObject 0).Set 1 8 ∧
        b.FoldsHistogram = (CreateDistributedObject ⟨[]⟩).Set 1 ⟨[]⟩ ∧
        b.BinFeatureCount = (CreateDistributedObject 0).Set 1 0 ∧
        b.HistogramsMapping = ⟨1, 0⟩ ∧
        b.CIndexOffsets.At 1 = 8 ∧ b.CIndexOffsets.At 0 = 0 ∧ SampleOffsets.At 0 = 7 :=
  ⟨rfl, _, rfl, rfl, rfl, rfl, rfl, rfl, rfl, rfl, rfl⟩

/-- C4 (amended): whenever `CreateFeaturesBlock` succeeds, the device under which it
records the compressed-index size, the compressed-index offset, the folds histogram and
the bin-feature count is the device of the sample mapping (`docsMapping.GetDeviceId()`);
whenever `featureIds` is non-empty, that device is the single active device resolved by
`GetActiveDevice`. -/
theorem CreateFeaturesBlock_records_on_sample_device (policy : TGroupingPolicy)
    (activeDevices featureIds : List Nat) (info : TFeaturesBinarizationDescription)
    (docsMapping : TSingleMapping) (cindexOffsets : TDistributedObject Nat)
    (b : TFeaturesBlock)
    (h : (CreateFeaturesBlock policy activeDevices featureIds info docsMapping
      cindexOffsets).Result = .ok b) :
    (∃ devSize, b.CIndexSizes =
        (CreateDistributedObject 0).Set docsMapping.GetDeviceId devSize) ∧
      b.CIndexOffsets = (CreateDistributedObject 0).Set docsMapping.GetDeviceId
        (cindexOffsets.At docsMapping.GetDeviceId) ∧
      b.FoldsHistogram = (CreateDistributedObject ⟨[]⟩).Set docsMapping.GetDeviceId
        (b.Grid.ComputeFoldsHistogram ⟨0, featureIds.length⟩) ∧
      b.BinFeatureCount = (CreateDistributedObject 0).Set docsMapping.GetDeviceId
        b.BinFeatures.length ∧
      (featureIds ≠ [] → GetActiveDevice activeDevices = .ok docsMapping.GetDeviceId) := by
  obtain ⟨layout, devSize, features, host, hlayout, hslice, hhelper, hmirror⟩ :=
    CreateFeaturesBlock_ok_inv _ _ _ _ _ _ _ h
  rw [CreateFeaturesBlock_ok _ _ _ _ _ _ _ _ _ _ hlayout hslice hhelper hmirror] at h
  simp only [Except.ok.injEq] at h
  subst h
  refine ⟨⟨devSize, rfl⟩, rfl, rfl, rfl, ?_⟩
  intro hne
  obtain ⟨hdev, _⟩ := (CreateLayout_ok_iff _ _ _).mp hlayout
  have hd : docsMapping.GetDeviceId = layout.DeviceId := by
    by_contra hc
    simp only [TSingleMapping.DeviceSlice, hc, if_false, TSlice.mk.injEq, true_and] at hslice
    exact hne (List.length_eq_zero.mp hslice.symm)
  rw [hd]
  exact hdev

/-- Witness for C4 (amended): two features, samples on the one active device 3. -/
theorem CreateFeaturesBlock_records_on_sample_device_witness :
    ∃ b, (CreateFeaturesBlock SamplePolicy [3] [4, 1] SampleInfo ⟨3, 5⟩ SampleOffsets).Result =
        .ok b ∧
      ((∃ devSize, b.CIndexSizes =
          (CreateDistributedObject 0).Set (⟨3, 5⟩ : TSingleMapping).GetDeviceId devSize) ∧
        b.CIndexOffsets = (CreateDistributedObject 0).Set (⟨3, 5⟩ : TSingleMapping).GetDeviceId
          (SampleOffsets.At (⟨3, 5⟩ : TSingleMapping).GetDeviceId) ∧
        b.FoldsHistogram =
          (CreateDistributedObject ⟨[]⟩).Set (⟨3, 5⟩ : TSingleMapping).GetDeviceId
            (b.Grid.ComputeFoldsHistogram ⟨0, [4, 1].length⟩) ∧
        b.BinFeatureCount = (CreateDistributedObject 0).Set (⟨3, 5⟩ : TSingleMapping).GetDeviceId
          b.BinFeatures.length ∧
        ([4, 1] ≠ [] → GetActiveDevice [3] = .ok (⟨3, 5⟩ : TSingleMapping).GetDeviceId)) :=
  ⟨_, rfl, CreateFeaturesBlock_records_on_sample_device SamplePolicy [3] [4, 1] SampleInfo
    ⟨3, 5⟩ SampleOffsets _ rfl⟩

/-- C5: whenever `CreateFeaturesBlock` succeeds, its `BinFeatures` list is the output of
the Bin-Feature Expander `BuildBinaryFeatures` on the full feature range
`[0, featureIds.size())` of the block's grid. -/
theorem CreateFeaturesBlock_BinFeatures (policy : TGroupingPolicy)
    (activeDevices featureIds : List Nat) (info : TFeaturesBinarizationDescription)
    (docsMapping : TSingleMapping) (cindexOffsets : TDistributedObject Nat)
    (b : TFeaturesBlock)
    (h : (CreateFeaturesBlock policy activeDevices featureIds info docsMapping
      cindexOffsets).Result = .ok b) :
    b.Grid = TCpuGrid.Create info featureIds ∧
      b.BinFeatures = BuildBinaryFeatures b.Grid ⟨0, featureIds.length⟩ := by
  obtain ⟨layout, devSize, features, host, hlayout, hslice, hhelper, hmirror⟩ :=
    CreateFeaturesBlock_ok_inv _ _ _ _ _ _ _ h
  rw [CreateFeaturesBlock_ok _ _ _ _ _ _ _ _ _ _ hlayout hslice hhelper hmirror] at h
  simp only [Except.ok.injEq] at h
  subst h
  have hlen : features.length = featureIds.length := by
    have := AddDeviceFeatures_length _ _ _ _ _ _ _ _ hhelper
    simpa [TSlice.Size] using this
  simp only [hlen, and_self]

/-- Witness for C5: features 4 and 1 (five and two split candidates) on device 3. -/
theorem CreateFeaturesBlock_BinFeatures_witness :
    ∃ b, (CreateFeaturesBlock SamplePolicy [3] [4, 1] SampleInfo ⟨3, 5⟩ SampleOffsets).Result =
        .ok b ∧
      b.BinFeatures = [⟨4, 0⟩, ⟨4, 1⟩, ⟨4, 2⟩, ⟨4, 3⟩, ⟨4, 4⟩, ⟨1, 0⟩, ⟨1, 1⟩] ∧
      (b.Grid = TCpuGrid.Create SampleInfo [4, 1] ∧
        b.BinFeatures = BuildBinaryFeatures b.Grid ⟨0, [4, 1].length⟩) :=
  ⟨_, rfl, rfl, CreateFeaturesBlock_BinFeatures SamplePolicy [3] [4, 1] SampleInfo
    ⟨3, 5⟩ SampleOffsets _ rfl⟩

/-- C6: whenever `CreateFeaturesBlock` succeeds, the Grouping Policy Helper has emitted one
descriptor per feature of the slice, the grid lists every requested feature id, and for
every feature index `i` in `[0, featureIds.size())` entry `i` of the host descriptor
table holds, for the device, the `i`-th descriptor the helper emitted; the helper's
output and the host table both have `featureIds.size()` elements, so every index the
mirroring loop uses is in bounds; the device-resident table is written with exactly the
helper's descriptor list. -/
theorem CreateFeaturesBlock_mirrors_descriptors (policy : TGroupingPolicy)
    (activeDevices featureIds : List Nat) (info : TFeaturesBinarizationDescription)
    (docsMapping : TSingleMapping) (cindexOffsets : TDistributedObject Nat)
    (b : TFeaturesBlock)
    (h : (CreateFeaturesBlock policy activeDevices featureIds info docsMapping
      cindexOffsets).Result = .ok b) :
    ∃ devSize features,
      AddDeviceFeatures policy (TCpuGrid.Create info featureIds) ⟨0, featureIds.length⟩
        (cindexOffsets.At docsMapping.GetDeviceId) (docsMapping.GetObjectsSlice.Size) [] =
          .ok (devSize, features) ∧
      features.length = featureIds.length ∧
      b.Grid.FeatureIds = featureIds ∧
      b.CudaFeaturesHost.length = featureIds.length ∧
      (∀ i, i < featureIds.length →
        ∃ entry f, b.CudaFeaturesHost[i]? = some entry ∧ features[i]? = some f ∧
          entry.At docsMapping.GetDeviceId = f) ∧
      b.CudaFeaturesDevice.Data = features ∧
      (CreateFeaturesBlock policy activeDevices featureIds info docsMapping
        cindexOffsets).Ops.filter
          (fun op => match op with
            | .CudaFeaturesDeviceWrite _ => true
            | _ => false) = [TDeviceOp.CudaFeaturesDeviceWrite features] := by
  obtain ⟨layout, devSize, features, host, hlayout, hslice, hhelper, hmirror⟩ :=
    CreateFeaturesBlock_ok_inv _ _ _ _ _ _ _ h
  have hrun := CreateFeaturesBlock_ok _ _ _ _ _ _ _ _ _ _ hlayout hslice hhelper hmirror
  rw [hrun] at h
  simp only [Except.ok.injEq] at h
  subst h
  have hlen : features.length = featureIds.length := by
    have := AddDeviceFeatures_length _ _ _ _ _ _ _ _ hhelper
    simpa [TSlice.Size] using this
  obtain ⟨hhost, hin, _⟩ := MirrorFeatures_spec _ _ _ _ _ hmirror
  refine ⟨devSize, features, hhelper, hlen, rfl, by simpa using hhost, ?_, rfl, ?_⟩
  · intro i hi
    exact hin i (by simp [List.mem_range'_1, hi])
  · rw [hrun]
    rfl

/-- Witness for C6: features 4 and 1 on device 3. -/
theorem CreateFeaturesBlock_mirrors_descriptors_witness :
    ∃ b, (CreateFeaturesBlock SamplePolicy [3] [4, 1] SampleInfo ⟨3, 5⟩ SampleOffsets).Result =
        .ok b ∧
      b.CudaFeaturesHost.map (fun entry => entry.At 3) = [⟨10, 15, 0, 6⟩, ⟨10, 15, 4, 3⟩] ∧
      ∃ devSize features,
        AddDeviceFeatures SamplePolicy (TCpuGrid.Create SampleInfo [4, 1]) ⟨0, [4, 1].length⟩
          (SampleOffsets.At (⟨3, 5⟩ : TSingleMapping).GetDeviceId)
          ((⟨3, 5⟩ : TSingleMapping).GetObjectsSlice.Size) [] = .ok (devSize, features) ∧
        features.length = [4, 1].length ∧
        b.Grid.FeatureIds = [4, 1] ∧
        b.CudaFeaturesHost.length = [4, 1].length ∧
        (∀ i, i < [4, 1].length →
          ∃ entry f, b.CudaFeaturesHost[i]? = some entry ∧ features[i]? = some f ∧
            entry.At (⟨3, 5⟩ : TSingleMapping).GetDeviceId = f) ∧
        b.CudaFeaturesDevice.Data = features ∧
        (CreateFeaturesBlock SamplePolicy [3] [4, 1] SampleInfo ⟨3, 5⟩
          SampleOffsets).Ops.filter
            (fun op => match op with
              | .CudaFeaturesDeviceWrite _ => true
              | _ => false) = [TDeviceOp.CudaFeaturesDeviceWrite features] :=
  ⟨_, rfl, rfl, CreateFeaturesBlock_mirrors_descriptors SamplePolicy [3] [4, 1] SampleInfo
    ⟨3, 5⟩ SampleOffsets _ rfl⟩

/-- C8: whenever `CreateFeaturesBlock` succeeds, the folds histogram it stores for the
device is the one computed over the device slice `[0, featureIds.size())`, and its
counts sum exactly to the bin-feature count stored for that device, which is the length
of the block's `BinFeatures` list. -/
theorem CreateFeaturesBlock_histogram_sum (policy : TGroupingPolicy)
    (activeDevices featureIds : List Nat) (info : TFeaturesBinarizationDescription)
    (docsMapping : TSingleMapping) (cindexOffsets : TDistributedObject Nat)
    (b : TFeaturesBlock)
    (h : (CreateFeaturesBlock policy activeDevices featureIds info docsMapping
      cindexOffsets).Result = .ok b) :
    b.FoldsHistogram.At docsMapping.GetDeviceId =
        b.Grid.ComputeFoldsHistogram ⟨0, featureIds.length⟩ ∧
      (b.FoldsHistogram.At docsMapping.GetDeviceId).Counts.sum =
        b.BinFeatureCount.At docsMapping.GetDeviceId ∧
      b.BinFeatureCount.At docsMapping.GetDeviceId = b.BinFeatures.length := by
  obtain ⟨layout, devSize, features, host, hlayout, hslice, hhelper, hmirror⟩ :=
    CreateFeaturesBlock_ok_inv _ _ _ _ _ _ _ h
  rw [CreateFeaturesBlock_ok _ _ _ _ _ _ _ _ _ _ hlayout hslice hhelper hmirror] at h
  simp only [Except.ok.injEq] at h
  subst h
  have hlen : features.length = featureIds.length := by
    have := AddDeviceFeatures_length _ _ _ _ _ _ _ _ hhelper
    simpa [TSlice.Size] using this
  simp only [TDistributedObject.At, TDistributedObject.Set, if_true, hlen,
    ComputeFoldsHistogram_sum, and_self]

/-- Witness for C8: features 4 and 1 on device 3 have five and two split candidates, so the
fold counts are `[2, 2, 1, 1, 1]` and there are seven bin-features. -/
theorem CreateFeaturesBlock_histogram_sum_witness :
    ∃ b, (CreateFeaturesBlock SamplePolicy [3] [4, 1] SampleInfo ⟨3, 5⟩ SampleOffsets).Result =
        .ok b ∧
      (b.FoldsHistogram.At 3).Counts = [2, 2, 1, 1, 1] ∧ b.BinFeatures.length = 7 ∧
      (b.FoldsHistogram.At (⟨3, 5⟩ : TSingleMapping).GetDeviceId =
          b.Grid.ComputeFoldsHistogram ⟨0, [4, 1].length⟩ ∧
        (b.FoldsHistogram.At (⟨3, 5⟩ : TSingleMapping).GetDeviceId).Counts.sum =
          b.BinFeatureCount.At (⟨3, 5⟩ : TSingleMapping).GetDeviceId ∧
        b.BinFeatureCount.At (⟨3, 5⟩ : TSingleMapping).GetDeviceId = b.BinFeatures.length) :=
  ⟨_, rfl, rfl, rfl, CreateFeaturesBlock_histogram_sum SamplePolicy [3] [4, 1] SampleInfo
    ⟨3, 5⟩ SampleOffsets _ rfl⟩

/-- C9: in every run of `CreateFeaturesBlock` that fails at the active-device check or at
one of the two device-slice checks, no device operation of the builder (the Grouping
Policy Helper invocation, `CudaFeaturesDevice` Reset/Write, `BinFeaturesForBestSplits`
Reset/Write) has been issued before the failure. -/
theorem CreateFeaturesBlock_configuration_error_before_device_work (policy : TGroupingPolicy)
    (activeDevices featureIds : List Nat) (info : TFeaturesBinarizationDescription)
    (docsMapping : TSingleMapping) (cindexOffsets : TDistributedObject Nat)
    (h : (CreateFeaturesBlock policy activeDevices featureIds info docsMapping
        cindexOffsets).Result = .error .ActiveDeviceCheck ∨
      (CreateFeaturesBlock policy activeDevices featureIds info docsMapping
        cindexOffsets).Result = .error .SliceLeftCheck ∨
      (CreateFeaturesBlock policy activeDevices featureIds info docsMapping
        cindexOffsets).Result = .error .SliceRightCheck) :
    (CreateFeaturesBlock policy activeDevices featureIds info docsMapping
      cindexOffsets).Ops = [] := by
  cases hlayout : CreateLayout activeDevices (featureIds.length % 2 ^ 32) with
  | error e => rw [CreateFeaturesBlock_layout_error _ _ _ _ _ _ _ hlayout]
  | ok layout =>
    by_cases hleft : (layout.DeviceSlice docsMapping.GetDeviceId).Left = 0
    · by_cases hright : (layout.DeviceSlice docsMapping.GetDeviceId).Right = featureIds.length
      · exfalso
        have hslice : layout.DeviceSlice docsMapping.GetDeviceId = ⟨0, featureIds.length⟩ := by
          cases hs : layout.DeviceSlice docsMapping.GetDeviceId with
          | mk l r =>
            rw [hs] at hleft hright
            simp only at hleft hright
            rw [hleft, hright]
        cases hhelper : AddDeviceFeatures policy (TCpuGrid.Create info featureIds)
            ⟨0, featureIds.length⟩ (cindexOffsets.At docsMapping.GetDeviceId)
            docsMapping.GetObjectsSlice.Size [] with
        | error e =>
          rw [CreateFeaturesBlock_helper_error _ _ _ _ _ _ _ _ hlayout hslice hhelper] at h
          obtain ⟨f, _, _, he, _⟩ := AddDeviceFeatures_error _ _ _ _ _ _ hhelper
          subst he
          rcases h with h | h | h <;> cases h
        | ok r =>
          obtain ⟨devSize, features⟩ := r
          have hlen : features.length = featureIds.length := by
            have := AddDeviceFeatures_length _ _ _ _ _ _ _ _ hhelper
            simpa [TSlice.Size] using this
          obtain ⟨host, hmirror⟩ := MirrorFeatures_builder_ok docsMapping.GetDeviceId features
            featureIds.length hlen
          rw [CreateFeaturesBlock_ok _ _ _ _ _ _ _ _ _ _ hlayout hslice hhelper hmirror] at h
          rcases h with h | h | h <;> cases h
      · rw [CreateFeaturesBlock_slice_right _ _ _ _ _ _ _ hlayout hleft hright]
    · rw [CreateFeaturesBlock_slice_left _ _ _ _ _ _ _ hlayout hleft]

/-- Witness for C9: two distinct active devices, the run fails at the active-device check
with no device operation issued. -/
theorem CreateFeaturesBlock_configuration_error_before_device_work_witness :
    (CreateFeaturesBlock SamplePolicy [0, 1] [4] SampleInfo ⟨1, 5⟩ SampleOffsets).Result =
        .error .ActiveDeviceCheck ∧
      (CreateFeaturesBlock SamplePolicy [0, 1] [4] SampleInfo ⟨1, 5⟩ SampleOffsets).Ops = [] :=
  ⟨rfl, CreateFeaturesBlock_configuration_error_before_device_work SamplePolicy [0, 1] [4]
    SampleInfo ⟨1, 5⟩ SampleOffsets (Or.inl rfl)⟩

/-- Decoding a merged word gives back the bin when the feature's field was clear, the bin
is representable under the mask and the field lies inside the 32-bit word. -/
theorem DecodeBin_MergeBin (feature : TCFeature) (word bin : Nat)
    (hword : feature.Mask <<< feature.Shift < 2 ^ 32)
    (hclear : DecodeBin feature word = 0) (hbin : bin &&& feature.Mask = bin) :
    DecodeBin feature (MergeBin feature word bin) = bin := by
  unfold DecodeBin MergeBin at *
  have hle : (bin &&& feature.Mask) <<< feature.Shift ≤ feature.Mask <<< feature.Shift := by
    rw [Nat.shiftLeft_eq, Nat.shiftLeft_eq]
    exact Nat.mul_le_mul_right _ Nat.and_le_right
  rw [Nat.mod_eq_of_lt (Nat.lt_of_le_of_lt hle hword), hbin]
  apply Nat.eq_of_testBit_eq
  intro i
  have h0i := congrArg (fun x => Nat.testBit x i) hclear
  have hbi := congrArg (fun x => Nat.testBit x i) hbin
  simp only [Nat.testBit_and, Nat.testBit_shiftRight, Nat.testBit_or, Nat.testBit_shiftLeft,
    Nat.zero_testBit] at h0i hbi ⊢
  have e : feature.Shift + i - feature.Shift = i := by omega
  have e2 : feature.Shift + i ≥ feature.Shift := by omega
  simp only [e, e2, decide_True, Bool.true_and]
  cases h1 : word.testBit (feature.Shift + i) <;> cases h2 : bin.testBit i <;>
    cases h3 : feature.Mask.testBit i <;> simp_all

/-- The writer's loop, word by word: sample `k` of the remaining bins is merged into word
`feature.Offset + i + k`, every other word is unchanged. -/
theorem WriteCompressedFeatureLoop_spec (feature : TCFeature) (bins : List Nat) (i : Nat)
    (cindex : List Nat) (hfit : feature.Offset + i + bins.length ≤ cindex.length) :
    ∃ out, WriteCompressedFeatureLoop feature bins i cindex = .ok out ∧
      out.length = cindex.length ∧
      (∀ k bin word, bins[k]? = some bin → cindex[feature.Offset + i + k]? = some word →
        out[feature.Offset + i + k]? = some (MergeBin feature word bin)) ∧
      (∀ j, j < feature.Offset + i ∨ feature.Offset + i + bins.length ≤ j →
        out[j]? = cindex[j]?) := by
  induction bins generalizing i cindex with
  | nil =>
    refine ⟨cindex, rfl, rfl, ?_, fun _ _ => rfl⟩
    intro k bin word hk
    simp at hk
  | cons b rest ih =>
    simp only [List.length_cons] at hfit
    have hi : feature.Offset + i < cindex.length := by omega
    simp only [WriteCompressedFeatureLoop, List.getElem?_eq_getElem hi]
    obtain ⟨out, hout, hlen, hin, hrest⟩ := ih (i + 1)
      (cindex.set (feature.Offset + i) (MergeBin feature cindex[feature.Offset + i] b))
      (by simp only [List.length_set]; omega)
    refine ⟨out, hout, by simpa using hlen, ?_, ?_⟩
    · intro k bin word hk hw
      cases k with
      | zero =>
        simp only [List.getElem?_cons_zero, Option.some.injEq] at hk
        simp only [Nat.add_zero, List.getElem?_eq_getElem hi, Option.some.injEq] at hw
        subst hk hw
        rw [Nat.add_zero, hrest _ (Or.inl (by omega))]
        simp [List.getElem?_set, hi]
      | succ k =>
        simp only [List.getElem?_cons_succ] at hk
        have e : feature.Offset + i + (k + 1) = feature.Offset + (i + 1) + k := by omega
        rw [e] at hw ⊢
        apply hin k bin word hk
        rw [List.getElem?_set]
        have hne : ¬ feature.Offset + i = feature.Offset + (i + 1) + k := by omega
        simp only [hne, if_false]
        exact hw
    · intro j hj
      simp only [List.length_cons] at hj
      rw [hrest j (by omega), List.getElem?_set]
      have hne : ¬ feature.Offset + i = j := by omega
      simp only [hne, if_false]

/-- C7 as stated fails. The descriptors are the two that the sample layout emits for
features 4 and 1 (word offset 10, mask 15, shifts 0 and 4), five samples. Writing the
bins `[1, 0, 0, 0, 0]` of the second feature into an index whose word 10 already holds
`0x30` in that feature's field leaves `0x30`, which decodes to 3, not 1; writing the bin
array `[21, 0, 0, 0, 0]`, whose first bin does not fit the mask 15, into a zeroed index
decodes to 5, not 21. -/
theorem WriteToCompressedIndex_round_trip_fails :
    AddDeviceFeatures SamplePolicy (TCpuGrid.Create SampleInfo [4, 1]) ⟨0, 2⟩ 10 5 [] =
        .ok (5, [⟨10, 15, 0, 6⟩, ⟨10, 15, 4, 3⟩]) ∧
      WriteToCompressedIndex (CreateDistributedObject ⟨10, 15, 4, 3⟩) [1, 0, 0, 0, 0] ⟨0, 5⟩
          [0, 0, 0, 0, 0, 0, 0, 0, 0, 0, 48, 0, 0, 0, 0] =
        .ok [0, 0, 0, 0, 0, 0, 0, 0, 0, 0, 48, 0, 0, 0, 0] ∧
      DecodeBin ⟨10, 15, 4, 3⟩ 48 = 3 ∧
      WriteToCompressedIndex (CreateDistributedObject ⟨10, 15, 4, 3⟩) [21, 0, 0, 0, 0] ⟨0, 5⟩
          [0, 0, 0, 0, 0, 0, 0, 0, 0, 0, 0, 0, 0, 0, 0] =
        .ok [0, 0, 0, 0, 0, 0, 0, 0, 0, 0, 80, 0, 0, 0, 0] ∧
      DecodeBin ⟨10, 15, 4, 3⟩ 80 = 5 := by
  exact ⟨rfl, rfl, rfl, rfl, rfl⟩

/-- C7 (amended): round trip of the Column Writer. For every feature descriptor whose
field `mask << shift` lies inside a 32-bit word, every per-sample bin array with one
`ui8` bin per sample of the sample mapping and every bin representable under the mask
(`bin & mask == bin`), and every compressed index that contains the feature's words and
in which the feature's field is still clear for every sample, `WriteToCompressedIndex`
succeeds, keeps the size of the index, and decoding `(word >> shift) & mask` for every
sample reproduces the original bin array exactly. -/
theorem WriteToCompressedIndex_round_trip (feature : TDistributedObject TCFeature)
    (bins : List Nat) (docsMapping : TSingleMapping) (compressedIndex : List Nat)
    (hsamples : bins.length = docsMapping.Count)
    (hbytes : ∀ bin ∈ bins, bin < 256)
    (hword : (feature.At docsMapping.DeviceId).Mask <<< (feature.At docsMapping.DeviceId).Shift
      < 2 ^ 32)
    (hbins : ∀ bin ∈ bins, bin &&& (feature.At docsMapping.DeviceId).Mask = bin)
    (hfit : (feature.At docsMapping.DeviceId).Offset + bins.length ≤ compressedIndex.length)
    (hclear : ∀ i word, i < bins.length →
      compressedIndex[(feature.At docsMapping.DeviceId).Offset + i]? = some word →
      DecodeBin (feature.At docsMapping.DeviceId) word = 0) :
    ∃ out, WriteToCompressedIndex feature bins docsMapping compressedIndex = .ok out ∧
      out.length = compressedIndex.length ∧
      ∀ i, i < bins.length →
        (out[(feature.At docsMapping.DeviceId).Offset + i]?).map
          (DecodeBin (feature.At docsMapping.DeviceId)) = bins[i]? := by
  have hmap : bins.map (· % 256) = bins := by
    conv_rhs => rw [← List.map_id bins]
    apply List.map_congr_left
    intro bin hbin
    exact Nat.mod_eq_of_lt (hbytes bin hbin)
  obtain ⟨out, hout, hlen, hin, _⟩ := WriteCompressedFeatureLoop_spec
    (feature.At docsMapping.DeviceId) bins 0 compressedIndex (by simpa using hfit)
  refine ⟨out, ?_, hlen, ?_⟩
  · simp only [WriteToCompressedIndex, TSingleBuffer.Write, hmap, WriteCompressedFeature,
      hsamples, ne_eq, not_true_eq_false, if_false]
    exact hout
  · intro i hi
    have hw : (feature.At docsMapping.DeviceId).Offset + i < compressedIndex.length := by omega
    have := hin i bins[i] compressedIndex[(feature.At docsMapping.DeviceId).Offset + i]
      (List.getElem?_eq_getElem hi) (by simp [List.getElem?_eq_getElem hw])
    simp only [Nat.add_zero] at this
    rw [this, List.getElem?_eq_getElem hi, Option.map_some']
    congr 1
    exact DecodeBin_MergeBin _ _ _ hword
      (hclear i _ hi (List.getElem?_eq_getElem hw)) (hbins _ (List.getElem_mem _))

/-- Witness for C7 (amended): the second descriptor of the sample layout, five samples
with bins `[2, 0, 1, 2, 0]`, written into an index in which the first feature (shift 0)
is already present. -/
theorem WriteToCompressedIndex_round_trip_witness :
    ∃ out, WriteToCompressedIndex (CreateDistributedObject ⟨10, 15, 4, 3⟩) [2, 0, 1, 2, 0]
        ⟨0, 5⟩ [0, 0, 0, 0, 0, 0, 0, 0, 0, 0, 0, 1, 2, 3, 0] = .ok out ∧
      out.length = [0, 0, 0, 0, 0, 0, 0, 0, 0, 0, 0, 1, 2, 3, 0].length ∧
      ∀ i, i < [2, 0, 1, 2, 0].length →
        (out[((CreateDistributedObject (⟨10, 15, 4, 3⟩ : TCFeature)).At
            (⟨0, 5⟩ : TSingleMapping).DeviceId).Offset + i]?).map
          (DecodeBin ((CreateDistributedObject (⟨10, 15, 4, 3⟩ : TCFeature)).At
            (⟨0, 5⟩ : TSingleMapping).DeviceId)) = [2, 0, 1, 2, 0][i]? :=
  WriteToCompressedIndex_round_trip (CreateDistributedObject ⟨10, 15, 4, 3⟩) [2, 0, 1, 2, 0]
    ⟨0, 5⟩ [0, 0, 0, 0, 0, 0, 0, 0, 0, 0, 0, 1, 2, 3, 0] rfl (by decide) (by decide)
    (by decide) (by decide)
    (by
      intro i word hi hw
      have hi5 : i < 5 := hi
      interval_cases i <;> simp [CreateDistributedObject, TDistributedObject.At] at hw <;>
        subst hw <;> decide)

end NCatboostCuda

/-! ## Properties of the loss-description parsers -/

namespace LossDescription

theorem TMap.Assign_spec (m : TMap) (key value : TString) (hm : m.WellFormed) :
    (m.Assign key value).WellFormed ∧
      ∀ a b, (a, b) ∈ m.Assign key value ↔ (a, b) = (key, value) ∨ ((a, b) ∈ m ∧ a ≠ key) := by
  induction m with
  | nil =>
    refine ⟨by simp [TMap.Assign, TMap.WellFormed], ?_⟩
    intro a b
    simp [TMap.Assign]
  | cons e rest ih =>
    obtain ⟨k, v⟩ := e
    unfold TMap.WellFormed at hm
    rw [List.pairwise_cons] at hm
    obtain ⟨hhead, hrest⟩ := hm
    obtain ⟨ihwf, ihmem⟩ := ih hrest
    simp only [TMap.Assign]
    split
    · rename_i hlt
      refine ⟨?_, ?_⟩
      · unfold TMap.WellFormed
        rw [List.pairwise_cons]
        refine ⟨?_, List.pairwise_cons.mpr ⟨hhead, hrest⟩⟩
        intro e he
        rcases List.mem_cons.mp he with h | h
        · subst h; exact hlt
        · exact lt_trans hlt (hhead e h)
      · intro a b
        simp only [List.mem_cons, Prod.mk.injEq]
        constructor
        · rintro (h | h | h)
          · exact Or.inl h
          · refine Or.inr ⟨Or.inl h, ?_⟩
            rw [h.1]
            exact fun hc => lt_irrefl _ (hc ▸ hlt)
          · refine Or.inr ⟨Or.inr h, ?_⟩
            have := lt_trans hlt (hhead _ h)
            exact fun hc => lt_irrefl _ (hc ▸ this)
        · rintro (h | ⟨h | h, _⟩)
          · exact Or.inl h
          · exact Or.inr (Or.inl h)
          · exact Or.inr (Or.inr h)
    · rename_i hnlt
      split
      · rename_i heq
        subst heq
        refine ⟨?_, ?_⟩
        · unfold TMap.WellFormed
          rw [List.pairwise_cons]
          exact ⟨hhead, hrest⟩
        · intro a b
          simp only [List.mem_cons, Prod.mk.injEq]
          constructor
          · rintro (h | h)
            · exact Or.inl h
            · refine Or.inr ⟨Or.inr h, ?_⟩
              have := hhead _ h
              exact fun hc => lt_irrefl _ (hc ▸ this)
          · rintro (h | ⟨h | h, hne⟩)
            · exact Or.inl h
            · exact absurd h.1 hne
            · exact Or.inr h
      · rename_i hne
        have hgt : k < key := by
          rcases lt_trichotomy key k with h | h | h
          · exact absurd h hnlt
          · exact absurd h hne
          · exact h
        refine ⟨?_, ?_⟩
        · unfold TMap.WellFormed
          rw [List.pairwise_cons]
          refine ⟨?_, ihwf⟩
          intro e he
          obtain ⟨a, b⟩ := e
          rcases (ihmem a b).mp he with h | ⟨h, _⟩
          · simp only [Prod.mk.injEq] at h
            rw [h.1]
            exact hgt
          · exact hhead _ h
        · intro a b
          simp only [List.mem_cons, Prod.mk.injEq, ihmem]
          constructor
          · rintro (h | h | ⟨h, hne'⟩)
            · refine Or.inr ⟨Or.inl h, ?_⟩
              rw [h.1]
              exact fun hc => lt_irrefl _ (hc ▸ hgt)
            · exact Or.inl h
            · exact Or.inr ⟨Or.inr h, hne'⟩
          · rintro (h | ⟨h | h, hne'⟩)
            · exact Or.inr (Or.inl h)
            · exact Or.inl h
            · exact Or.inr (Or.inr ⟨h, hne'⟩)

theorem SplitLimited_one (delim : Char) (s : TString) : SplitLimited delim 1 s = [s] := by
  cases s <;> simp [SplitLimited]

theorem SplitLimited_no_delim (delim : Char) (limit : Nat) (s : TString) (h : delim ∉ s) :
    SplitLimited delim limit s = [s] := by
  induction s with
  | nil => simp [SplitLimited]
  | cons c rest ih =>
    simp only [List.mem_cons, not_or] at h
    simp only [SplitLimited]
    split
    · rfl
    · rw [if_neg (fun hc => h.1 hc.symm), ih h.2]
      rfl

theorem SplitLimited_two (delim : Char) (a b : TString) (h : delim ∉ a) :
    SplitLimited delim 2 (a ++ delim :: b) = [a, b] := by
  induction a with
  | nil => simp [SplitLimited, SplitLimited_one]
  | cons c rest ih =>
    simp only [List.mem_cons, not_or] at h
    have e : (c :: rest) ++ delim :: b = c :: (rest ++ delim :: b) := rfl
    rw [e]
    simp only [SplitLimited]
    rw [if_neg (by decide), if_neg (fun hc => h.1 hc.symm), ih h.2]
    rfl

theorem Split_no_delim (delim : Char) (s : TString) (h : delim ∉ s) : Split delim s = [s] := by
  induction s with
  | nil => simp [Split]
  | cons c rest ih =>
    simp only [List.mem_cons, not_or] at h
    simp only [Split]
    rw [if_neg (fun hc => h.1 hc.symm), ih h.2]
    rfl

theorem Split_append (delim : Char) (a b : TString) (h : delim ∉ a) :
    Split delim (a ++ delim :: b) = a :: Split delim b := by
  induction a with
  | nil => simp [Split]
  | cons c rest ih =>
    simp only [List.mem_cons, not_or] at h
    have e : (c :: rest) ++ delim :: b = c :: (rest ++ delim :: b) := rfl
    rw [e]
    simp only [Split]
    rw [if_neg (fun hc => h.1 hc.symm), ih h.2]
    rfl

theorem Split_JoinWith (delim : Char) (tokens : List TString) (hne : tokens ≠ [])
    (h : ∀ token ∈ tokens, delim ∉ token) : Split delim (JoinWith delim tokens) = tokens := by
  induction tokens with
  | nil => exact absurd rfl hne
  | cons token rest ih =>
    cases rest with
    | nil => simpa [JoinWith] using Split_no_delim delim token (h token (by simp))
    | cons next rest =>
      simp only [JoinWith]
      rw [Split_append delim _ _ (h token (by simp)),
        ih (by simp) (fun t ht => h t (List.mem_cons_of_mem _ ht))]

theorem ParseLossParamsLoop_params (kvs : List (TString × TString)) (params : TMap)
    (h : ∀ kv ∈ kvs, '=' ∉ kv.1) :
    ParseLossParamsLoop (kvs.map ParamToken) params =
      .ok (kvs.foldl (fun m kv => m.Assign kv.1 kv.2) params) := by
  induction kvs generalizing params with
  | nil => rfl
  | cons kv rest ih =>
    simp only [List.map_cons, ParseLossParamsLoop, ParamToken,
      SplitLimited_two '=' kv.1 kv.2 (h kv (by simp)), List.foldl_cons]
    simp only [List.length_cons, List.length_nil, ne_eq, not_true_eq_false, if_false]
    exact ih _ (fun kv' hkv' => h kv' (List.mem_cons_of_mem _ hkv'))

theorem foldl_Assign_spec (kvs : List (TString × TString)) (params : TMap)
    (hwf : params.WellFormed) (hkeys : (kvs.map Prod.fst).Nodup) :
    (kvs.foldl (fun m kv => m.Assign kv.1 kv.2) params).WellFormed ∧
      ∀ a b, (a, b) ∈ kvs.foldl (fun m kv => m.Assign kv.1 kv.2) params ↔
        (a, b) ∈ kvs ∨ ((a, b) ∈ params ∧ a ∉ kvs.map Prod.fst) := by
  induction kvs generalizing params with
  | nil => simpa using hwf
  | cons kv rest ih =>
    obtain ⟨k, v⟩ := kv
    simp only [List.map_cons, List.nodup_cons] at hkeys
    obtain ⟨hk, hrest⟩ := hkeys
    obtain ⟨hwf', hmem'⟩ := TMap.Assign_spec params k v hwf
    obtain ⟨hwf'', hmem''⟩ := ih (params.Assign k v) hwf' hrest
    refine ⟨by simpa using hwf'', ?_⟩
    intro a b
    rw [List.foldl_cons, hmem'', hmem']
    constructor
    · rintro (h | ⟨h | ⟨h, hne⟩, hnot⟩)
      · exact Or.inl (List.mem_cons_of_mem _ h)
      · exact Or.inl (h ▸ List.mem_cons_self _ _)
      · refine Or.inr ⟨h, ?_⟩
        intro hc
        rcases List.mem_cons.mp hc with hc | hc
        · exact hne hc
        · exact hnot hc
    · rintro (h | ⟨h, hnot⟩)
      · rcases List.mem_cons.mp h with h | h
        · refine Or.inr ⟨Or.inl h, ?_⟩
          simp only [Prod.mk.injEq] at h
          rw [h.1]
          exact hk
        · exact Or.inl h
      · refine Or.inr ⟨Or.inr ⟨h, ?_⟩, ?_⟩
        · exact fun hc => hnot (hc ▸ List.mem_cons_self _ _)
        · exact fun hc => hnot (List.mem_cons_of_mem _ hc)

/-- C10: `ParseLossParams` parses the documented form
`metric_name:param1=value1;...;paramN=valueN`: for every name and every non-empty list of
parameters in which the name, the keys and the values contain none of `:`, `;`, `=` and
the keys are pairwise distinct, it succeeds and returns the map whose entries are
exactly the given key-value pairs; for every description that contains no `:` it returns
the empty map. -/
theorem ParseLossParams_documented_form :
    (∀ (name : TString) (params : List (TString × TString)),
      params ≠ [] → IsPlain name → (∀ kv ∈ params, IsPlain kv.1 ∧ IsPlain kv.2) →
      (params.map Prod.fst).Nodup →
      ∃ m, ParseLossParams (MetricDescription name params) = .ok m ∧ m.WellFormed ∧
        ∀ key value, (key, value) ∈ m ↔ (key, value) ∈ params) ∧
    (∀ description : TString, ':' ∉ description → ParseLossParams description = .ok []) := by
  constructor
  · intro name params hne hname hparams hkeys
    have htok : SplitLimited ':' 2 (MetricDescription name params) =
        [name, JoinWith ';' (params.map ParamToken)] :=
      SplitLimited_two ':' name _ hname.1
    have hsplit : Split ';' (JoinWith ';' (params.map ParamToken)) = params.map ParamToken := by
      apply Split_JoinWith
      · simpa using hne
      · intro token htoken
        obtain ⟨kv, hkv, rfl⟩ := List.mem_map.mp htoken
        obtain ⟨hk, hv⟩ := hparams kv hkv
        simp only [ParamToken, List.mem_append, List.mem_cons, not_or]
        exact ⟨hk.2.1, by decide, hv.2.1⟩
    obtain ⟨hwf, hmem⟩ := foldl_Assign_spec params [] (by simp [TMap.WellFormed]) hkeys
    refine ⟨_, ?_, hwf, ?_⟩
    · unfold ParseLossParams
      simp only [htok, List.isEmpty_cons, List.length_cons, List.length_nil, List.getD_cons_succ,
        List.getD_cons_zero, hsplit]
      simp only [Bool.false_eq_true, if_false, Nat.le_refl, not_true_eq_false, if_true]
      exact ParseLossParamsLoop_params params [] (fun kv hkv => (hparams kv hkv).1.2.2)
    · intro key value
      rw [hmem]
      simp
  · intro description h
    unfold ParseLossParams
    simp [SplitLimited_no_delim ':' 2 description h]

/-- C10 at a concrete description: `Quantile:alpha=0.3;b=2` parses to the two parameters,
`RMSE` and the empty description to the empty map. -/
theorem ParseLossParams_documented_form_witness :
    ParseLossParams "Quantile:alpha=0.3;b=2".toList =
        .ok [("alpha".toList, "0.3".toList), ("b".toList, "2".toList)] ∧
      MetricDescription "Quantile".toList
          [("b".toList, "2".toList), ("alpha".toList, "0.3".toList)] =
        "Quantile:b=2;alpha=0.3".toList ∧
      (∃ m, ParseLossParams (MetricDescription "Quantile".toList
          [("b".toList, "2".toList), ("alpha".toList, "0.3".toList)]) = .ok m ∧
        m.WellFormed ∧
        ∀ key value, (key, value) ∈ m ↔
          (key, value) ∈ [("b".toList, "2".toList), ("alpha".toList, "0.3".toList)]) ∧
      ParseLossParams "RMSE".toList = .ok [] ∧ ParseLossParams "".toList = .ok [] :=
  ⟨rfl, by decide,
    ParseLossParams_documented_form.1 "Quantile".toList
      [("b".toList, "2".toList), ("alpha".toList, "0.3".toList)] (by decide)
      (by decide) (by decide) (by decide),
    ParseLossParams_documented_form.2 "RMSE".toList (by decide),
    ParseLossParams_documented_form.2 "".toList (by decide)⟩

end LossDescription

/-! ## The defensive assertion of the builder -/

namespace NCatboostCuda
open NCudaLib

/-- Every run of the builder either returns a block or ends in one of the four
configuration errors. -/
theorem CreateFeaturesBlock_outcomes (policy : TGroupingPolicy)
    (activeDevices featureIds : List Nat) (info : TFeaturesBinarizationDescription)
    (docsMapping : TSingleMapping) (cindexOffsets : TDistributedObject Nat) :
    (∃ b, (CreateFeaturesBlock policy activeDevices featureIds info docsMapping
        cindexOffsets).Result = .ok b) ∨
      ∃ e, (CreateFeaturesBlock policy activeDevices featureIds info docsMapping
        cindexOffsets).Result = .error e ∧ e.IsConfigurationError = true := by
  cases hlayout : CreateLayout activeDevices (featureIds.length % 2 ^ 32) with
  | error e =>
    rw [CreateFeaturesBlock_layout_error _ _ _ _ _ _ _ hlayout]
    exact Or.inr ⟨_, rfl, rfl⟩
  | ok layout =>
    by_cases hleft : (layout.DeviceSlice docsMapping.GetDeviceId).Left = 0
    · by_cases hright : (layout.DeviceSlice docsMapping.GetDeviceId).Right = featureIds.length
      · have hslice : layout.DeviceSlice docsMapping.GetDeviceId = ⟨0, featureIds.length⟩ := by
          cases hs : layout.DeviceSlice docsMapping.GetDeviceId with
          | mk l r =>
            rw [hs] at hleft hright
            simp only at hleft hright
            rw [hleft, hright]
        cases hhelper : AddDeviceFeatures policy (TCpuGrid.Create info featureIds)
            ⟨0, featureIds.length⟩ (cindexOffsets.At docsMapping.GetDeviceId)
            docsMapping.GetObjectsSlice.Size [] with
        | error e =>
          rw [CreateFeaturesBlock_helper_error _ _ _ _ _ _ _ _ hlayout hslice hhelper]
          obtain ⟨f, _, _, he, _⟩ := AddDeviceFeatures_error _ _ _ _ _ _ hhelper
          subst he
          exact Or.inr ⟨_, rfl, rfl⟩
        | ok r =>
          obtain ⟨devSize, features⟩ := r
          have hlen : features.length = featureIds.length := by
            have := AddDeviceFeatures_length _ _ _ _ _ _ _ _ hhelper
            simpa [TSlice.Size] using this
          obtain ⟨host, hmirror⟩ := MirrorFeatures_builder_ok docsMapping.GetDeviceId features
            featureIds.length hlen
          rw [CreateFeaturesBlock_ok _ _ _ _ _ _ _ _ _ _ hlayout hslice hhelper hmirror]
          exact Or.inl ⟨_, rfl⟩
      · rw [CreateFeaturesBlock_slice_right _ _ _ _ _ _ _ hlayout hleft hright]
        exact Or.inr ⟨_, rfl, rfl⟩
    · rw [CreateFeaturesBlock_slice_left _ _ _ _ _ _ _ hlayout hleft]
      exact Or.inr ⟨_, rfl, rfl⟩

/-- The assertion holds for whatever block reaches it, provided the count was recorded by
`BinFeatureCount.Set(dev, BinFeatures.size())` as on line 85. -/
theorem AssertAndFinish_ok (dev : Nat) (ops : List TDeviceOp) (result : TFeaturesBlock)
    (count : TDistributedObject Nat) :
    ∃ b, (AssertAndFinish dev ops
        { result with BinFeatureCount := count.Set dev result.BinFeatures.length }).Result =
          .ok b ∧
      b.BinFeatures = result.BinFeatures ∧
      b.BinFeatureCount.At dev = result.BinFeatures.length ∧
      b.HistogramsMapping = ⟨dev, result.BinFeatures.length⟩ ∧
      b.BinFeaturesForBestSplits = ⟨⟨dev, result.BinFeatures.length⟩, result.BinFeatures⟩ := by
  simp [AssertAndFinish, TDistributedObject.At, TDistributedObject.Set, TSingleBuffer.Reset,
    TSingleBuffer.Write]

/-- C15: the defensive assertion of `CreateFeaturesBlock` never fires: no run ends in it,
and in every run that gets past it (every successful run) the bin-feature count recorded
for the device equals the length of the computed `BinFeatures` list, and the histograms
mapping and the best-split bin-feature buffer built from it live on the device and have
exactly that many elements. -/
theorem CreateFeaturesBlock_assertion_never_fires (policy : TGroupingPolicy)
    (activeDevices featureIds : List Nat) (info : TFeaturesBinarizationDescription)
    (docsMapping : TSingleMapping) (cindexOffsets : TDistributedObject Nat) :
    (CreateFeaturesBlock policy activeDevices featureIds info docsMapping cindexOffsets).Result
        ≠ .error .BinFeatureCountAssert ∧
      ∀ b, (CreateFeaturesBlock policy activeDevices featureIds info docsMapping
          cindexOffsets).Result = .ok b →
        b.BinFeatureCount.At docsMapping.GetDeviceId = b.BinFeatures.length ∧
        b.HistogramsMapping = ⟨docsMapping.GetDeviceId, b.BinFeatures.length⟩ ∧
        b.BinFeaturesForBestSplits.Mapping = b.HistogramsMapping ∧
        b.BinFeaturesForBestSplits.Mapping.Count = b.BinFeatures.length ∧
        b.BinFeaturesForBestSplits.Data.length = b.BinFeatures.length := by
  constructor
  · intro h
    rcases CreateFeaturesBlock_outcomes policy activeDevices featureIds info docsMapping
      cindexOffsets with ⟨b, hb⟩ | ⟨e, he, hconf⟩
    · rw [hb] at h
      cases h
    · rw [he] at h
      cases h
      cases hconf
  · intro b h
    obtain ⟨layout, devSize, features, host, hlayout, hslice, hhelper, hmirror⟩ :=
      CreateFeaturesBlock_ok_inv _ _ _ _ _ _ _ h
    rw [CreateFeaturesBlock_ok _ _ _ _ _ _ _ _ _ _ hlayout hslice hhelper hmirror] at h
    simp only [Except.ok.injEq] at h
    subst h
    simp [TDistributedObject.At, TDistributedObject.Set]

/-- C15 at a concrete run: features 4 and 1 on device 3 give seven bin-features, recorded
as 7, with a histograms mapping and a best-split buffer of seven elements. -/
theorem CreateFeaturesBlock_assertion_never_fires_witness :
    ∃ b, (CreateFeaturesBlock SamplePolicy [3] [4, 1] SampleInfo ⟨3, 5⟩ SampleOffsets).Result =
        .ok b ∧
      b.BinFeatureCount.At 3 = 7 ∧ b.BinFeatures.length = 7 ∧ b.HistogramsMapping = ⟨3, 7⟩ ∧
      b.BinFeaturesForBestSplits.Data.length = 7 ∧
      (b.BinFeatureCount.At (⟨3, 5⟩ : TSingleMapping).GetDeviceId = b.BinFeatures.length ∧
        b.HistogramsMapping = ⟨(⟨3, 5⟩ : TSingleMapping).GetDeviceId, b.BinFeatures.length⟩ ∧
        b.BinFeaturesForBestSplits.Mapping = b.HistogramsMapping ∧
        b.BinFeaturesForBestSplits.Mapping.Count = b.BinFeatures.length ∧
        b.BinFeaturesForBestSplits.Data.length = b.BinFeatures.length) :=
  ⟨_, rfl, rfl, rfl, rfl, rfl,
    (CreateFeaturesBlock_assertion_never_fires SamplePolicy [3] [4, 1] SampleInfo ⟨3, 5⟩
      SampleOffsets).2 _ rfl⟩

end NCatboostCuda

/-! ## Loss type, hints -/

namespace LossDescription

theorem SplitLimited_ne_nil (delim : Char) (limit : Nat) (s : TString) :
    SplitLimited delim limit s ≠ [] := by
  induction s generalizing limit with
  | nil => simp [SplitLimited]
  | cons c rest ih =>
    simp only [SplitLimited]
    split
    · simp
    · split
      · simp
      · cases h : SplitLimited delim limit rest with
        | nil => exact absurd h (ih limit)
        | cons token tokens => simp [ConsToFirst]

/-- The first token of a split into at least two tokens is the part of the string before
its first delimiter. -/
theorem SplitLimited_first (delim : Char) (limit : Nat) (hlimit : 2 ≤ limit) (s : TString) :
    (SplitLimited delim limit s).getD 0 [] = s.takeWhile (fun c => c ≠ delim) := by
  induction s with
  | nil => simp [SplitLimited]
  | cons c rest ih =>
    simp only [SplitLimited]
    rw [if_neg (by omega)]
    by_cases hc : c = delim
    · simp [hc]
    · rw [if_neg hc]
      cases h : SplitLimited delim limit rest with
      | nil => exact absurd h (SplitLimited_ne_nil delim limit rest)
      | cons token tokens =>
        rw [h] at ih
        simp only [List.getD_cons_zero] at ih
        simp [ConsToFirst, List.takeWhile_cons, hc, ih]

theorem takeWhile_ne_append (delim : Char) (name rest : TString) (h : delim ∉ name) :
    (name ++ delim :: rest).takeWhile (fun c => c ≠ delim) = name := by
  induction name with
  | nil => simp [List.takeWhile_cons]
  | cons c name ih =>
    simp only [List.mem_cons, not_or] at h
    have hc : c ≠ delim := fun e => h.1 e.symm
    have hp : (fun c => decide (c ≠ delim)) c = true := by simpa using hc
    rw [List.cons_append, List.takeWhile_cons, if_pos hp, ih h.2]

theorem takeWhile_ne_self (delim : Char) (name : TString) (h : delim ∉ name) :
    name.takeWhile (fun c => c ≠ delim) = name := by
  induction name with
  | nil => rfl
  | cons c name ih =>
    simp only [List.mem_cons, not_or] at h
    have hc : c ≠ delim := fun e => h.1 e.symm
    have hp : (fun c => decide (c ≠ delim)) c = true := by simpa using hc
    rw [List.takeWhile_cons, if_pos hp, ih h.2]

/-- C11: `ParseLossType` returns the loss function whose name is the part of the
description before its first `:` (the whole description when it has no `:`); it fails,
with the "loss is not supported" error for that part, if and only if that part is not
the name of a supported loss function; the text after the first `:` never influences the
result. -/
theorem ParseLossType_first_token {ELossFunction : Type}
    (TryFromString : TString → Option ELossFunction) (lossDescription : TString) :
    (ParseLossType TryFromString lossDescription =
        match TryFromString (lossDescription.takeWhile (fun c => c ≠ ':')) with
        | some loss => .ok loss
        | none => .error (.LossNotSupported (lossDescription.takeWhile (fun c => c ≠ ':')))) ∧
      (∀ loss, ParseLossType TryFromString lossDescription = .ok loss ↔
        TryFromString (lossDescription.takeWhile (fun c => c ≠ ':')) = some loss) ∧
      ((∃ e, ParseLossType TryFromString lossDescription = .error e) ↔
        TryFromString (lossDescription.takeWhile (fun c => c ≠ ':')) = none) ∧
      (∀ e, ParseLossType TryFromString lossDescription = .error e →
        e = .LossNotSupported (lossDescription.takeWhile (fun c => c ≠ ':'))) ∧
      (':' ∉ lossDescription →
        lossDescription.takeWhile (fun c => c ≠ ':') = lossDescription) ∧
      (∀ name rest, lossDescription = name ++ ':' :: rest → ':' ∉ name →
        lossDescription.takeWhile (fun c => c ≠ ':') = name ∧
        ParseLossType TryFromString lossDescription = ParseLossType TryFromString name) := by
  have hmain : ∀ s : TString, ParseLossType TryFromString s =
      match TryFromString (s.takeWhile (fun c => c ≠ ':')) with
      | some loss => .ok loss
      | none => .error (.LossNotSupported (s.takeWhile (fun c => c ≠ ':'))) := by
    intro s
    unfold ParseLossType
    have hne : (SplitLimited ':' 2 s).isEmpty = false := by
      cases h : SplitLimited ':' 2 s with
      | nil => exact absurd h (SplitLimited_ne_nil ':' 2 s)
      | cons token tokens => rfl
    simp only [hne, Bool.false_eq_true, if_false, SplitLimited_first ':' 2 (Nat.le_refl 2) s]
  refine ⟨hmain lossDescription, ?_, ?_, ?_, takeWhile_ne_self ':' lossDescription, ?_⟩
  · intro loss
    rw [hmain lossDescription]
    cases TryFromString (lossDescription.takeWhile (fun c => c ≠ ':')) with
    | none => simp
    | some l => simp
  · rw [hmain lossDescription]
    cases TryFromString (lossDescription.takeWhile (fun c => c ≠ ':')) with
    | none => simp
    | some l => simp
  · intro e
    rw [hmain lossDescription]
    cases TryFromString (lossDescription.takeWhile (fun c => c ≠ ':')) with
    | none =>
      intro h
      simp only [Except.error.injEq] at h
      exact h.symm
    | some l => intro h; cases h
  · intro name rest hdesc hname
    subst hdesc
    refine ⟨takeWhile_ne_append ':' name rest hname, ?_⟩
    rw [hmain, hmain name, takeWhile_ne_append ':' name rest hname,
      takeWhile_ne_self ':' name hname]

/-- C11 at concrete descriptions, with the sample loss table. -/
theorem ParseLossType_first_token_witness :
    ParseLossType SampleTryFromString "Quantile:alpha=0.3;b=2".toList = .ok .Quantile ∧
      ParseLossType SampleTryFromString "Quantile:::".toList = .ok .Quantile ∧
      ParseLossType SampleTryFromString "RMSE".toList = .ok .RMSE ∧
      ParseLossType SampleTryFromString "rmse:alpha=1".toList =
        .error (.LossNotSupported "rmse".toList) ∧
      ParseLossType SampleTryFromString "".toList = .error (.LossNotSupported []) ∧
      (ParseLossType SampleTryFromString "Quantile:alpha=0.3;b=2".toList = .ok .Quantile ↔
        SampleTryFromString ("Quantile:alpha=0.3;b=2".toList.takeWhile (fun c => c ≠ ':')) =
          some .Quantile) :=
  ⟨rfl, rfl, rfl, rfl, rfl,
    (ParseLossType_first_token SampleTryFromString "Quantile:alpha=0.3;b=2".toList).2.1
      .Quantile⟩

end LossDescription

namespace LossDescription

theorem ValidateHintsLoop_ok_iff (hints : TMap) :
    ValidateHintsLoop hints = .ok () ↔ ∀ e ∈ hints, e.1 = "skip_train".toList := by
  induction hints with
  | nil => simp [ValidateHintsLoop]
  | cons hint rest ih =>
    simp only [ValidateHintsLoop]
    by_cases h : hint.1 = "skip_train".toList
    · have hmem : hint.1 ∈ ["skip_train".toList] := List.mem_singleton.mpr h
      rw [if_pos hmem, ih]
      constructor
      · intro hr e he
        rcases List.mem_cons.mp he with he | he
        · rw [he]; exact h
        · exact hr e he
      · intro hr e he
        exact hr e (List.mem_cons_of_mem _ he)
    · have hmem : ¬ hint.1 ∈ ["skip_train".toList] := fun hc => h (List.mem_singleton.mp hc)
      rw [if_neg hmem]
      constructor
      · intro hc; cases hc
      · intro hc; exact absurd (hc hint (List.mem_cons_self _ _)) h

theorem TMap.Has_iff_Find (m : TMap) (key : TString) :
    m.Has key = true ↔ ∃ value, m.Find key = some value := by
  induction m with
  | nil => simp [TMap.Has, TMap.Find]
  | cons e rest ih =>
    by_cases h : e.1 = key
    · simp [TMap.Has, TMap.Find, List.find?_cons, h]
    · have hb : (e.1 == key) = false := by simpa using h
      simp only [TMap.Has, TMap.Find] at ih
      simp only [TMap.Has, TMap.Find, List.any_cons, List.find?_cons, hb, Bool.false_or]
      exact ih

/-- A map in strictly ascending key order whose keys are all the same has at most one
entry. -/
theorem TMap.length_le_one_of_same_key (m : TMap) (key : TString) (hwf : m.WellFormed)
    (h : ∀ e ∈ m, e.1 = key) : m = [] ∨ ∃ value, m = [(key, value)] := by
  match m, hwf, h with
  | [], _, _ => exact Or.inl rfl
  | [e], _, h =>
    obtain ⟨k, v⟩ := e
    have hk : k = key := h (k, v) (by simp)
    subst hk
    exact Or.inr ⟨v, rfl⟩
  | e :: e' :: rest, hwf, h =>
    exfalso
    unfold TMap.WellFormed at hwf
    rw [List.pairwise_cons] at hwf
    have hlt := hwf.1 e' (by simp)
    rw [h e (by simp), h e' (by simp)] at hlt
    exact lt_irrefl _ hlt

/-- `ValidateHints` returns normally exactly when every key is "skip_train" and the value
found for "skip_train", if there is one, is "true" or "false". -/
theorem ValidateHints_ok_iff (hints : TMap) :
    ValidateHints hints = .ok () ↔
      (∀ e ∈ hints, e.1 = "skip_train".toList) ∧
      ∀ value, hints.Find "skip_train".toList = some value →
        value = "true".toList ∨ value = "false".toList := by
  unfold ValidateHints
  cases hloop : ValidateHintsLoop hints with
  | error e =>
    have hno : ¬ ∀ e ∈ hints, e.1 = "skip_train".toList := by
      rw [← ValidateHintsLoop_ok_iff, hloop]
      intro hc; cases hc
    constructor
    · intro hc; cases hc
    · intro hc; exact absurd hc.1 hno
  | ok u =>
    have hall : ∀ e ∈ hints, e.1 = "skip_train".toList :=
      (ValidateHintsLoop_ok_iff hints).mp hloop
    cases hfind : hints.Find "skip_train".toList with
    | none =>
      have hhas : hints.Has "skip_train".toList = false := by
        cases hh : hints.Has "skip_train".toList with
        | false => rfl
        | true =>
          obtain ⟨v, hv⟩ := (TMap.Has_iff_Find _ _).mp hh
          rw [hfind] at hv
          cases hv
      simp only [hhas, Bool.false_eq_true, if_false]
      exact ⟨fun _ => ⟨hall, fun v hv => by cases hv⟩, fun _ => trivial⟩
    | some value =>
      have hhas : hints.Has "skip_train".toList = true :=
        (TMap.Has_iff_Find _ _).mpr ⟨value, hfind⟩
      simp only [hhas, if_true]
      by_cases hv : value = "true".toList ∨ value = "false".toList
      · rw [if_pos hv]
        refine ⟨fun _ => ⟨hall, ?_⟩, fun _ => rfl⟩
        intro v hval
        simp only [Option.some.injEq] at hval
        subst hval
        exact hv
      · rw [if_neg hv]
        constructor
        · intro hc; cases hc
        · intro hc; exact absurd (hc.2 value rfl) hv

/-- C12: `ValidateHints` accepts a hints map if and only if every key in it is
"skip_train" and, when "skip_train" is present, its value is exactly "true" or "false";
the accepted maps are exactly the empty map, `{skip_train -> true}` and
`{skip_train -> false}`, and every other map raises an error. -/
theorem ValidateHints_accepts_iff (hints : TMap) :
    (ValidateHints hints = .ok () ↔
        (∀ e ∈ hints, e.1 = "skip_train".toList) ∧
        ∀ value, hints.Find "skip_train".toList = some value →
          value = "true".toList ∨ value = "false".toList) ∧
      (hints.WellFormed →
        (ValidateHints hints = .ok () ↔
          hints = [] ∨ hints = [("skip_train".toList, "true".toList)] ∨
            hints = [("skip_train".toList, "false".toList)])) ∧
      (ValidateHints hints ≠ .ok () → ∃ e, ValidateHints hints = .error e) := by
  have hiff := ValidateHints_ok_iff hints
  refine ⟨hiff, ?_, ?_⟩
  · intro hwf
    rw [hiff]
    constructor
    · rintro ⟨hall, hval⟩
      rcases TMap.length_le_one_of_same_key hints _ hwf hall with h | ⟨v, h⟩
      · exact Or.inl h
      · subst h
        rcases hval v (by simp [TMap.Find]) with h | h
        · exact Or.inr (Or.inl (by rw [h]))
        · exact Or.inr (Or.inr (by rw [h]))
    · rintro (h | h | h) <;> subst h
      · simp [TMap.Find]
      · refine ⟨by simp, ?_⟩
        intro value hv
        simp only [TMap.Find, List.find?_cons, beq_self_eq_true, Option.map_some',
          Option.some.injEq] at hv
        exact Or.inl hv.symm
      · refine ⟨by simp, ?_⟩
        intro value hv
        simp only [TMap.Find, List.find?_cons, beq_self_eq_true, Option.map_some',
          Option.some.injEq] at hv
        exact Or.inr hv.symm
  · intro hne
    cases h : ValidateHints hints with
    | ok u => exact absurd h hne
    | error e => exact ⟨e, rfl⟩

/-- C12 at concrete maps. -/
theorem ValidateHints_accepts_iff_witness :
    ValidateHints [] = .ok () ∧
      ValidateHints [("skip_train".toList, "true".toList)] = .ok () ∧
      ValidateHints [("skip_train".toList, "false".toList)] = .ok () ∧
      ValidateHints [("skip_train".toList, "True".toList)] = .error .SkipTrainValue ∧
      ValidateHints [("border".toList, "0.5".toList), ("skip_train".toList, "true".toList)] =
        .error (.NoHintCalled "border".toList) ∧
      (ValidateHints [("skip_train".toList, "true".toList)] = .ok () ↔
        [("skip_train".toList, "true".toList)] = ([] : TMap) ∨
          [("skip_train".toList, "true".toList)] =
            [("skip_train".toList, "true".toList)] ∨
          [("skip_train".toList, "true".toList)] =
            [("skip_train".toList, "false".toList)]) :=
  ⟨rfl, rfl, rfl, rfl, rfl,
    (ValidateHints_accepts_iff [("skip_train".toList, "true".toList)]).2.1
      (by simp [TMap.WellFormed])⟩

/-- C13 as stated fails: on the input `hints=skip_train~true` the function does not
return `{skip_train -> true}`. It has no handling of a leading `hints=`: the whole text
before `~` is the key, and `ValidateHints` rejects the unknown hint `hints=skip_train`.
The same text without the parameter key is accepted. -/
theorem ParseHintsDescription_documented_form_rejected :
    ParseHintsDescription "hints=skip_train~true".toList =
        .error (.NoHintCalled "hints=skip_train".toList) ∧
      ParseHintsDescription "skip_train~true".toList =
        .ok [("skip_train".toList, "true".toList)] :=
  ⟨rfl, rfl⟩

/-- C13 (amended): the form in the error message of `ParseHintsDescription`,
`hints=key1~value1|...|keyN~valueN`, is the form of the `hints` parameter inside a metric
description; `ParseHintsDescription` accepts its value. For every metric name without
`:`, `ParseLossParams` on `name:hints=skip_train~true` returns the map
`{hints -> skip_train~true}`, and on that value, the input `skip_train~true`,
`ParseHintsDescription` succeeds and returns the map `{skip_train -> true}`. -/
theorem ParseHintsDescription_accepts_hints_parameter_value (name : TString)
    (hname : ':' ∉ name) :
    ParseLossParams (MetricDescription name [("hints".toList, "skip_train~true".toList)]) =
        .ok [("hints".toList, "skip_train~true".toList)] ∧
      ParseHintsDescription "skip_train~true".toList =
        .ok [("skip_train".toList, "true".toList)] := by
  refine ⟨?_, rfl⟩
  have htok : SplitLimited ':' 2
      (MetricDescription name [("hints".toList, "skip_train~true".toList)]) =
        [name, "hints=skip_train~true".toList] :=
    SplitLimited_two ':' name _ hname
  have hsplit : Split ';' "hints=skip_train~true".toList = ["hints=skip_train~true".toList] :=
    rfl
  unfold ParseLossParams
  simp only [htok, List.isEmpty_cons, List.length_cons, List.length_nil, List.getD_cons_succ,
    List.getD_cons_zero, hsplit]
  simp only [Bool.false_eq_true, if_false, Nat.le_refl, not_true_eq_false, if_true]
  rfl

/-- Witness for C13 (amended): the metric description `AUC:hints=skip_train~true`. -/
theorem ParseHintsDescription_accepts_hints_parameter_value_witness :
    MetricDescription "AUC".toList [("hints".toList, "skip_train~true".toList)] =
        "AUC:hints=skip_train~true".toList ∧
      (ParseLossParams
          (MetricDescription "AUC".toList [("hints".toList, "skip_train~true".toList)]) =
          .ok [("hints".toList, "skip_train~true".toList)] ∧
        ParseHintsDescription "skip_train~true".toList =
          .ok [("skip_train".toList, "true".toList)]) :=
  ⟨rfl, ParseHintsDescription_accepts_hints_parameter_value "AUC".toList (by decide)⟩

/-- C14: on the empty description the code returns the empty parameter map: the token
list of the empty string is the single empty token, so the check named "Metric
description should not be empty" does not fire. -/
theorem ParseLossParams_empty_description_accepted :
    SplitLimited ':' 2 "".toList = [[]] ∧ ParseLossParams "".toList = .ok [] :=
  ⟨rfl, rfl⟩

end LossDescription

namespace LossDescription

theorem Split_ne_nil (delim : Char) (s : TString) : Split delim s ≠ [] := by
  induction s with
  | nil => simp [Split]
  | cons c rest ih =>
    simp only [Split]
    split
    · simp
    · cases h : Split delim rest with
      | nil => exact absurd h ih
      | cons token tokens => simp [ConsToFirst]

/-- A string that splits into a single token is that token. -/
theorem Split_singleton (delim : Char) (s token : TString) (h : Split delim s = [token]) :
    s = token := by
  induction s generalizing token with
  | nil =>
    simp only [Split, List.cons.injEq, and_true] at h
    exact h
  | cons c rest ih =>
    simp only [Split] at h
    split at h
    · simp only [List.cons.injEq] at h
      exact absurd h.2 (Split_ne_nil delim rest)
    · cases hr : Split delim rest with
      | nil => exact absurd hr (Split_ne_nil delim rest)
      | cons t ts =>
        rw [hr] at h
        simp only [ConsToFirst, List.cons.injEq] at h
        obtain ⟨ht, hts⟩ := h
        subst hts
        rw [ih t hr, ← ht]

/-- A token that splits into exactly two parts is `key ++ delim :: value` with no
delimiter in the key. -/
theorem SplitLimited_two_inv (delim : Char) (token : TString)
    (h : (SplitLimited delim 2 token).length = 2) :
    ∃ key value, token = key ++ delim :: value ∧ delim ∉ key ∧
      SplitLimited delim 2 token = [key, value] := by
  induction token with
  | nil => simp [SplitLimited] at h
  | cons c rest ih =>
    simp only [SplitLimited] at h ⊢
    rw [if_neg (by decide)] at h ⊢
    by_cases hc : c = delim
    · rw [if_pos hc]
      subst hc
      exact ⟨[], rest, rfl, by simp, by simp [SplitLimited_one]⟩
    · rw [if_neg hc] at h ⊢
      cases hr : SplitLimited delim 2 rest with
      | nil => exact absurd hr (SplitLimited_ne_nil delim 2 rest)
      | cons t ts =>
        rw [hr] at h
        simp only [ConsToFirst, List.length_cons] at h
        obtain ⟨key, value, hrest, hkey, hsplit⟩ := ih (by rw [hr]; simpa using h)
        rw [hr] at hsplit
        simp only [List.cons.injEq] at hsplit
        obtain ⟨ht, hts⟩ := hsplit
        subst ht hts
        refine ⟨c :: t, value, by rw [hrest]; rfl, ?_, rfl⟩
        simp only [List.mem_cons, not_or]
        exact ⟨fun e => hc e.symm, hkey⟩

theorem TMap.Has_eq_false_iff (m : TMap) (key : TString) :
    m.Has key = false ↔ ∀ value, (key, value) ∉ m := by
  induction m with
  | nil => simp [TMap.Has]
  | cons e rest ih =>
    obtain ⟨k, v⟩ := e
    simp only [TMap.Has, List.any_cons, Bool.or_eq_false_iff, beq_eq_false_iff_ne, ne_eq,
      List.mem_cons, Prod.mk.injEq, not_or, not_and] at ih ⊢
    rw [ih]
    constructor
    · rintro ⟨hk, hr⟩ value
      exact ⟨fun e => absurd e.symm hk, hr value⟩
    · intro hall
      refine ⟨fun e => (hall v).1 e.symm rfl, fun value => (hall value).2⟩

/-- A successful pass of the loop of `ParseHintsDescription`: every token is
`key~value`, the keys are pairwise distinct and new to the map, and the result is the map
with these entries assigned. -/
theorem ParseHintsLoop_inv (tokens : List TString) (hints result : TMap)
    (hwf : hints.WellFormed) (h : ParseHintsLoop tokens hints = .ok result) :
    ∃ kvs : List (TString × TString),
      tokens = kvs.map (fun kv => kv.1 ++ '~' :: kv.2) ∧
      (kvs.map Prod.fst).Nodup ∧
      (∀ kv ∈ kvs, ∀ value, (kv.1, value) ∉ hints) ∧
      result = kvs.foldl (fun m kv => m.Assign kv.1 kv.2) hints := by
  induction tokens generalizing hints with
  | nil =>
    simp only [ParseHintsLoop, Except.ok.injEq] at h
    exact ⟨[], rfl, by simp, by simp, h.symm⟩
  | cons token rest ih =>
    simp only [ParseHintsLoop] at h
    by_cases hlen : (SplitLimited '~' 2 token).length = 2
    · rw [if_neg (by simpa using hlen)] at h
      obtain ⟨key, value, htoken, _, hsplit⟩ := SplitLimited_two_inv '~' token hlen
      rw [hsplit] at h
      simp only [List.getD_cons_zero, List.getD_cons_succ] at h
      cases hhas : hints.Has key with
      | true =>
        rw [hhas] at h
        simp only [if_true] at h
        cases h
      | false =>
        rw [hhas] at h
        simp only [Bool.false_eq_true, if_false] at h
        obtain ⟨hwf', hmem'⟩ := TMap.Assign_spec hints key value hwf
        obtain ⟨kvs, hrest, hnodup, hfresh, hresult⟩ := ih (hints.Assign key value) hwf' h
        have hkey : key ∉ kvs.map Prod.fst := by
          intro hc
          obtain ⟨kv, hkv, hk⟩ := List.mem_map.mp hc
          exact hfresh kv hkv value (by rw [hk]; exact (hmem' key value).mpr (Or.inl rfl))
        refine ⟨(key, value) :: kvs, ?_, ?_, ?_, ?_⟩
        · simp only [List.map_cons, htoken, hrest]
        · simp only [List.map_cons, List.nodup_cons]
          exact ⟨hkey, hnodup⟩
        · intro kv hkv v
          rcases List.mem_cons.mp hkv with hkv | hkv
          · rw [hkv]
            exact (TMap.Has_eq_false_iff hints key).mp hhas v
          · intro hc
            have hne : kv.1 ≠ key := fun e => hkey (e ▸ List.mem_map_of_mem Prod.fst hkv)
            exact hfresh kv hkv v ((hmem' kv.1 v).mpr (Or.inr ⟨hc, hne⟩))
        · simpa using hresult
    · rw [if_pos (by simpa using hlen)] at h
      cases h

/-- C16: for every string `s`, `ParseHintsDescription(s)` succeeds if and only if `s` is
exactly "skip_train~true" or "skip_train~false", and then returns the one-entry map
`{skip_train -> true}` or `{skip_train -> false}` respectively; in particular the empty
string, every description with two or more `|`-separated entries and every description
with an entry without `~` is rejected. -/
theorem ParseHintsDescription_accepts_iff (s : TString) :
    ((∃ hints, ParseHintsDescription s = .ok hints) ↔
        s = "skip_train~true".toList ∨ s = "skip_train~false".toList) ∧
      (s = "skip_train~true".toList →
        ParseHintsDescription s = .ok [("skip_train".toList, "true".toList)]) ∧
      (s = "skip_train~false".toList →
        ParseHintsDescription s = .ok [("skip_train".toList, "false".toList)]) ∧
      (s = [] → ∃ e, ParseHintsDescription s = .error e) ∧
      ('|' ∈ s → ∃ e, ParseHintsDescription s = .error e) ∧
      ('~' ∉ s → ∃ e, ParseHintsDescription s = .error e) := by
  have hfwd : ∀ hints, ParseHintsDescription s = .ok hints →
      s = "skip_train~true".toList ∨ s = "skip_train~false".toList := by
    intro hints h
    unfold ParseHintsDescription at h
    simp only at h
    split at h
    · cases h
    · cases hloop : ParseHintsLoop (Split '|' s) [] with
      | error e => rw [hloop] at h; cases h
      | ok result =>
        rw [hloop] at h
        simp only at h
        cases hval : ValidateHints result with
        | error e => rw [hval] at h; cases h
        | ok u =>
          obtain ⟨kvs, htokens, hnodup, _, hresult⟩ :=
            ParseHintsLoop_inv (Split '|' s) [] result (by simp [TMap.WellFormed]) hloop
          obtain ⟨hwf, hmem⟩ := foldl_Assign_spec kvs [] (by simp [TMap.WellFormed]) hnodup
          rw [← hresult] at hwf hmem
          obtain ⟨hall, hvalue⟩ := (ValidateHints_ok_iff result).mp hval
          have hkeys : ∀ kv ∈ kvs, kv.1 = "skip_train".toList := by
            intro kv hkv
            exact hall kv ((hmem kv.1 kv.2).mpr (Or.inl hkv))
          match kvs, htokens, hnodup, hresult, hkeys with
          | [], htokens, _, _, _ =>
            exact absurd htokens (Split_ne_nil '|' s)
          | [kv], htokens, _, hresult, hkeys =>
            obtain ⟨key, value⟩ := kv
            have hkey : key = "skip_train".toList := hkeys (key, value) (by simp)
            subst hkey
            have hs := Split_singleton '|' s _ htokens
            simp only [List.foldl_cons, List.foldl_nil, TMap.Assign] at hresult
            subst hresult
            rcases hvalue value (by simp [TMap.Find]) with hv | hv
            · subst hv
              exact Or.inl hs
            · subst hv
              exact Or.inr hs
          | kv :: kv' :: rest, _, hnodup, _, hkeys =>
            exfalso
            simp only [List.map_cons, List.nodup_cons, List.mem_cons, not_or] at hnodup
            exact hnodup.1.1 ((hkeys kv (by simp)).trans (hkeys kv' (by simp)).symm)
  have hreject : (¬ (s = "skip_train~true".toList ∨ s = "skip_train~false".toList)) →
      ∃ e, ParseHintsDescription s = .error e := by
    intro hno
    cases h : ParseHintsDescription s with
    | error e => exact ⟨e, rfl⟩
    | ok hints => exact absurd (hfwd hints h) hno
  refine ⟨⟨fun ⟨hints, h⟩ => hfwd hints h, ?_⟩, ?_, ?_, ?_, ?_, ?_⟩
  · rintro (h | h) <;> subst h
    · exact ⟨_, rfl⟩
    · exact ⟨_, rfl⟩
  · intro h; subst h; rfl
  · intro h; subst h; rfl
  · intro h
    apply hreject
    subst h
    decide
  · intro h
    apply hreject
    rintro (hs | hs) <;> subst hs <;> revert h <;> decide
  · intro h
    apply hreject
    rintro (hs | hs) <;> subst hs <;> revert h <;> decide

/-- C16 at concrete descriptions. -/
theorem ParseHintsDescription_accepts_iff_witness :
    ParseHintsDescription "skip_train~true".toList =
        .ok [("skip_train".toList, "true".toList)] ∧
      ParseHintsDescription "skip_train~false".toList =
        .ok [("skip_train".toList, "false".toList)] ∧
      ParseHintsDescription "".toList = .error .InvalidHintsDescription ∧
      ParseHintsDescription "skip_train~true|skip_train~false".toList =
        .error .TwoSimilarKeys ∧
      ParseHintsDescription "skip_train~true|".toList = .error .InvalidHintsDescription ∧
      ParseHintsDescription "skip_train".toList = .error .InvalidHintsDescription ∧
      ParseHintsDescription "skip_train~yes".toList = .error .SkipTrainValue ∧
      ParseHintsDescription "skip_train~true~".toList = .error .SkipTrainValue ∧
      (∃ e, ParseHintsDescription "a~b|c~d".toList = .error e) :=
  ⟨rfl, rfl, rfl, rfl, rfl, rfl, rfl, rfl,
    (ParseHintsDescription_accepts_iff "a~b|c~d".toList).2.2.2.2.1 (by decide)⟩

end LossDescription
